import Mathlib

/-!
Verification development for the Optimo scheduling platform
(`scheduling-platform/optimizer`).  The Python sources are shallowly
embedded: Python dicts become insertion-ordered association lists,
Python floats become exact fractions over `Int` (every constant in the
algorithms is a small decimal fraction, and all comparisons performed by
the code are exact at these magnitudes), fallible code returns
`Except`, and Python `sorted` (a stable sort) is modelled by the stable
`List.insertionSort`.  Snake_case Python names are rendered in
camelCase.
-/

namespace Optimo

/-! ## Exact fractions standing in for Python floats

A `Score` is a fraction `num / den` with `den > 0` maintained by the
smart constructor `Score.fix` (division by zero never occurs in the
embedded code; `fix` maps it to the junk value 0 to stay total). -/

structure Score where
  num : Int
  den : Int
deriving DecidableEq, Repr

def Score.fix (n d : Int) : Score :=
  if d < 0 then ⟨-n, -d⟩ else if d = 0 then ⟨0, 1⟩ else ⟨n, d⟩

def Score.ofInt (n : Int) : Score := ⟨n, 1⟩

/-- The fraction `n / d` (with the sign pushed into the numerator). -/
def Score.frac (n d : Int) : Score := Score.fix n d

def Score.mul (x y : Score) : Score := Score.fix (x.num * y.num) (x.den * y.den)

def Score.div (x y : Score) : Score := Score.fix (x.num * y.den) (x.den * y.num)

def Score.add (x y : Score) : Score :=
  Score.fix (x.num * y.den + y.num * x.den) (x.den * y.den)

def Score.sub (x y : Score) : Score :=
  Score.fix (x.num * y.den - y.num * x.den) (x.den * y.den)

/-- Strict `<` on scores; correct because every constructed score has a
positive denominator. -/
def Score.blt (x y : Score) : Bool := x.num * y.den < y.num * x.den

/-- Non-strict `≤` on scores. -/
def Score.ble (x y : Score) : Bool := x.num * y.den ≤ y.num * x.den

def Score.zero : Score := ⟨0, 1⟩

def Score.one : Score := ⟨1, 1⟩

theorem Score.fix_den_pos (n d : Int) : 0 < (Score.fix n d).den := by
  by_cases h1 : d < 0
  · rw [Score.fix, if_pos h1]
    show (0 : Int) < -d
    omega
  · by_cases h2 : d = 0
    · rw [Score.fix, if_neg h1, if_pos h2]
      show (0 : Int) < 1
      omega
    · rw [Score.fix, if_neg h1, if_neg h2]
      show (0 : Int) < d
      omega

theorem Score.mul_den_pos (x y : Score) : 0 < (x.mul y).den := Score.fix_den_pos _ _

theorem Score.div_den_pos (x y : Score) : 0 < (x.div y).den := Score.fix_den_pos _ _

theorem Score.add_den_pos (x y : Score) : 0 < (x.add y).den := Score.fix_den_pos _ _

theorem Score.sub_den_pos (x y : Score) : 0 < (x.sub y).den := Score.fix_den_pos _ _

theorem Score.blt_zero_zero : Score.blt Score.zero Score.zero = false := rfl

/-! ## Python string ordering

Python compares strings lexicographically by code point; the embedding
compares the lists of code points. -/

def strKey (s : String) : List Nat := s.data.map Char.toNat

def natListLe : List Nat → List Nat → Bool
  | [], _ => true
  | _ :: _, [] => false
  | a :: as, b :: bs => if a < b then true else if b < a then false else natListLe as bs

/-- Python `s1 <= s2` on strings. -/
def pyStrLe (a b : String) : Bool := natListLe (strKey a) (strKey b)

theorem natListLe_total (a b : List Nat) : natListLe a b = true ∨ natListLe b a = true := by
  induction a generalizing b with
  | nil => left; rfl
  | cons x xs ih =>
    cases b with
    | nil => right; rfl
    | cons y ys =>
      by_cases hxy : x < y
      · left; simp [natListLe, hxy]
      · by_cases hyx : y < x
        · right; simp [natListLe, hyx]
        · rcases ih ys with h | h
          · left; simp [natListLe, hxy, hyx, h]
          · right; simp [natListLe, hxy, hyx, h]

theorem natListLe_trans {a b c : List Nat} (hab : natListLe a b = true)
    (hbc : natListLe b c = true) : natListLe a c = true := by
  induction a generalizing b c with
  | nil => rfl
  | cons x xs ih =>
    cases b with
    | nil => simp [natListLe] at hab
    | cons y ys =>
      cases c with
      | nil => simp [natListLe] at hbc
      | cons z zs =>
        simp only [natListLe] at hab hbc ⊢
        by_cases hxy : x < y
        · by_cases hyz : y < z
          · simp [show x < z by omega]
          · by_cases hzy : z < y
            · simp [hyz, hzy] at hbc
            · have : y = z := by omega
              subst this
              simp [hxy]
        · by_cases hyx : y < x
          · simp [hxy, hyx] at hab
          · have hxyeq : x = y := by omega
            subst hxyeq
            rw [if_neg hxy, if_neg hyx] at hab
            by_cases hyz : x < z
            · simp [hyz]
            · by_cases hzy : z < x
              · simp [hyz, hzy] at hbc
              · rw [if_neg hyz, if_neg hzy] at hbc ⊢
                exact ih hab hbc

/-! ## Entity model (`src/models/entities.py`)

Python dicts are embedded as insertion-ordered association lists and the
assignment set as a list (the optimizers never produce duplicates).
Times are (hour, minute) pairs. -/

structure Period where
  id : String
  name : String
  startTime : Nat × Nat
  endTime : Nat × Nat
  dayOfWeek : Int
deriving DecidableEq, Repr

structure Teacher where
  id : String
  firstName : String
  lastName : String
  email : String
  department : String
  maxSections : Int := 5
  unavailablePeriods : List String := []
deriving DecidableEq, Repr

structure Student where
  id : String
  firstName : String
  lastName : String
  email : String
  gradeLevel : Int
  hasSpecialNeeds : Bool := false
deriving DecidableEq, Repr

structure Section where
  id : String
  courseId : String
  teacherId : Option String := none
  periodId : Option String := none
  capacity : Int := 30
  room : Option String := none
deriving DecidableEq, Repr

/-- `Section.is_scheduled`. -/
def Section.isScheduled (s : Section) : Bool := s.periodId.isSome

structure StudentPreference where
  studentId : String
  preferredCourses : List String
  requiredCourses : List String := []
deriving DecidableEq, Repr

/-- `StudentPreference.is_required`. -/
def StudentPreference.isRequired (p : StudentPreference) (courseId : String) : Bool :=
  p.requiredCourses.contains courseId

structure Assignment where
  studentId : String
  sectionId : String
deriving DecidableEq, Repr

structure Schedule where
  sections : List (String × Section)
  assignments : List Assignment := []
deriving DecidableEq, Repr

/-- `Schedule.get_student_assignments`. -/
def Schedule.getStudentAssignments (sch : Schedule) (studentId : String) : List String :=
  (sch.assignments.filter (fun a => a.studentId = studentId)).map (fun a => a.sectionId)

/-- `Schedule.get_section_enrollments`. -/
def Schedule.getSectionEnrollments (sch : Schedule) (sectionId : String) : List String :=
  (sch.assignments.filter (fun a => a.sectionId = sectionId)).map (fun a => a.studentId)

/-- `Schedule.get_enrollment_count`. -/
def Schedule.getEnrollmentCount (sch : Schedule) (sectionId : String) : Int :=
  (sch.getSectionEnrollments sectionId).length

/-- `Schedule.is_section_full`: an unknown section id is reported as full. -/
def Schedule.isSectionFull (sch : Schedule) (sectionId : String) : Bool :=
  match sch.sections.find? (fun kv => kv.1 = sectionId) with
  | none => true
  | some kv => sch.getEnrollmentCount sectionId ≥ kv.2.capacity

/-- C10: `Schedule.is_section_full` is total: it returns `True` for every
section id that is not a key of `schedule.sections`, and for known
sections it returns whether the enrollment count has reached the
capacity. -/
theorem c10_is_section_full_total (sch : Schedule) (sectionId : String) :
    (sch.sections.find? (fun kv => kv.1 = sectionId) = none →
      sch.isSectionFull sectionId = true) ∧
    (∀ kv, sch.sections.find? (fun kv => kv.1 = sectionId) = some kv →
      (sch.isSectionFull sectionId = true ↔
        kv.2.capacity ≤ sch.getEnrollmentCount sectionId)) := by
  constructor
  · intro h
    rw [Schedule.isSectionFull, h]
  · intro kv h
    rw [Schedule.isSectionFull, h]
    simp [ge_iff_le]

/-- Witness for C10 at a concrete schedule: a missing section id is full,
a known under-capacity section is not. -/
theorem c10_is_section_full_total_witness :
    (Schedule.mk [("S001", { id := "S001", courseId := "MATH101", capacity := 2 })]
      [⟨"u1", "S001"⟩]).isSectionFull "missing" = true ∧
    (Schedule.mk [("S001", { id := "S001", courseId := "MATH101", capacity := 2 })]
      [⟨"u1", "S001"⟩]).isSectionFull "S001" = false := by
  refine ⟨(c10_is_section_full_total _ "missing").1 (by decide), ?_⟩
  have h := ((c10_is_section_full_total
      (Schedule.mk [("S001", { id := "S001", courseId := "MATH101", capacity := 2 })]
        [⟨"u1", "S001"⟩]) "S001").2
      ("S001", { id := "S001", courseId := "MATH101", capacity := 2 }) (by decide))
  by_cases hb : (Schedule.mk [("S001", { id := "S001", courseId := "MATH101", capacity := 2 })]
      [⟨"u1", "S001"⟩]).isSectionFull "S001" = true
  · exact absurd (h.mp hb) (by decide)
  · simpa using hb

/-! ## Python exceptions and dataclass construction -/

inductive PyExn
  | typeError
  | nameError
  | runtimeError
  | zeroDivisionError
deriving DecidableEq, Repr

/-- Field list of the `Schedule` dataclass: `sections` has no default,
`assignments` has `field(default_factory=set)`. -/
def scheduleDataclassFields : List (String × Bool) :=
  [("sections", false), ("assignments", true)]

/-- A Python dataclass call succeeds iff every field without a default is
among the provided argument names. -/
def dataclassCallOk (fields : List (String × Bool)) (provided : List String) : Bool :=
  fields.all (fun f => f.2 || provided.contains f.1)

/-- The expression `Schedule()` (no arguments), as written at
`milp.py` lines 521 and 532. -/
def scheduleNoArgs : Except PyExn Schedule :=
  if dataclassCallOk scheduleDataclassFields [] then .ok ⟨[], []⟩
  else .error .typeError

/-- Gurobi status codes accepted by `MILPOptimizer.optimize`
(OPTIMAL, TIME_LIMIT, SOLUTION_LIMIT, INTERRUPTED, SUBOPTIMAL). -/
def acceptableStatuses : List Int := [2, 9, 10, 11, 13]

/-- Outcome of the `model.optimize()` call inside the `try` block. -/
inductive SolveOutcome
  | raises
  | finished (status : Int)
deriving DecidableEq, Repr

/-- Control flow of `MILPOptimizer.optimize` after `model.optimize()`:
if the solver raised, the `except` branch executes `return Schedule()`;
otherwise `schedule = Schedule()` runs before the status test, and the
extraction loops (unreachable, since `Schedule()` has no value for the
required `sections` argument) would populate it. -/
def milpOptimizeRun (outcome : SolveOutcome) : Except PyExn Schedule :=
  match outcome with
  | .raises => scheduleNoArgs
  | .finished _status => do
      let schedule ← scheduleNoArgs
      pure schedule

/-! ## Greedy optimizer (`src/algorithms/greedy.py`) -/

structure GreedyInput where
  students : List Student
  teachers : List Teacher
  sections : List Section
  periods : List Period
  studentPreferences : List StudentPreference
deriving Repr

def GreedyInput.findTeacher (I : GreedyInput) (tid : String) : Option Teacher :=
  I.teachers.find? (fun t => t.id = tid)

def GreedyInput.findSection (I : GreedyInput) (sid : String) : Option Section :=
  I.sections.find? (fun s => s.id = sid)

def GreedyInput.findPref (I : GreedyInput) (uid : String) : Option StudentPreference :=
  I.studentPreferences.find? (fun p => p.studentId = uid)

/-- `course_to_sections` from `_preprocess_data`. -/
def GreedyInput.courseToSections (I : GreedyInput) (courseId : String) : List String :=
  (I.sections.filter (fun s => s.courseId = courseId)).map (fun s => s.id)

/-- A section's teacher id through Python truthiness (`if section.teacher_id:`
skips both `None` and the empty string), as recorded in `section_to_teacher`. -/
def sectionTeacherId (s : Section) : Option String :=
  match s.teacherId with
  | some t => if t = "" then none else some t
  | none => none

/-- `teacher_to_sections` from `_preprocess_data`. -/
def GreedyInput.teacherToSections (I : GreedyInput) (tid : String) : List String :=
  (I.sections.filter (fun s => sectionTeacherId s = some tid)).map (fun s => s.id)

/-- Period ids whose period name is `R1` or `G1` (`special_course_periods`
resolves the restriction names to ids at construction). -/
def GreedyInput.medicalCareerPeriods (I : GreedyInput) : List String :=
  (I.periods.filter (fun p => p.name = "R1" ∨ p.name = "G1")).map (fun p => p.id)

/-- Period ids whose period name is `R2` or `G2`. -/
def GreedyInput.heroesTeachPeriods (I : GreedyInput) : List String :=
  (I.periods.filter (fun p => p.name = "R2" ∨ p.name = "G2")).map (fun p => p.id)

/-- `special_course_periods` as a partial map on course ids. -/
def GreedyInput.specialCoursePeriods (I : GreedyInput) (courseId : String) :
    Option (List String) :=
  if courseId = "Medical Career" then some I.medicalCareerPeriods
  else if courseId = "Heroes Teach" then some I.heroesTeachPeriods
  else none

/-- `sped_students`. -/
def GreedyInput.spedStudents (I : GreedyInput) : List String :=
  (I.students.filter (fun s => s.hasSpecialNeeds)).map (fun s => s.id)

/-- Mutable tracking state of `GreedyOptimizer`: `scheduled_sections`
(dict section id → period id) and `student_assignments`
(defaultdict student id → list of section ids). -/
structure GreedyState where
  scheduledSections : List (String × String)
  studentAssignments : List (String × List String)
deriving DecidableEq, Repr

def GreedyState.initial : GreedyState := ⟨[], []⟩

def lookupSched (st : GreedyState) (sid : String) : Option String :=
  (st.scheduledSections.find? (fun kv => kv.1 = sid)).map (fun kv => kv.2)

def getAssigns (st : GreedyState) (uid : String) : List String :=
  ((st.studentAssignments.find? (fun kv => kv.1 = uid)).map (fun kv => kv.2)).getD []

/-- Append a section id to a student's assignment list
(`self.student_assignments[student_id].append(...)` on a defaultdict). -/
def appendToEntry : List (String × List String) → String → String → List (String × List String)
  | [], uid, sid => [(uid, [sid])]
  | (k, v) :: rest, uid, sid =>
      if k = uid then (k, v ++ [sid]) :: rest else (k, v) :: appendToEntry rest uid sid

def appendAssign (st : GreedyState) (uid sid : String) : GreedyState :=
  { st with studentAssignments := appendToEntry st.studentAssignments uid sid }

/-- Dict assignment `m[k] = v` on an insertion-ordered dict. -/
def dictSet : List (String × String) → String → String → List (String × String)
  | [], k, v => [(k, v)]
  | (k0, v0) :: rest, k, v =>
      if k0 = k then (k, v) :: rest else (k0, v0) :: dictSet rest k v

/-- `_compute_section_priority` for one section. -/
def computeSectionPriority (I : GreedyInput) (sec : Section) : Score :=
  let priority := Score.one
  let priority := if (I.specialCoursePeriods sec.courseId).isSome
                  then priority.mul (Score.ofInt 5) else priority
  let priority := if sec.courseId = "Sports Med"
                  then priority.mul (Score.ofInt 3) else priority
  let priority :=
    match sectionTeacherId sec with
    | some tid =>
        match I.findTeacher tid with
        | some teacher =>
            let priority := priority.mul
              ((Score.one).add ((Score.frac 1 10).mul
                (Score.ofInt teacher.unavailablePeriods.length)))
            priority.mul
              ((Score.one).add ((Score.frac 2 10).mul
                (Score.ofInt (I.teacherToSections tid).length)))
        | none => priority
    | none => priority
  let courseSectionCount := (I.courseToSections sec.courseId).length
  let priority := priority.mul
    ((Score.one).add ((Score.one).div (Score.ofInt courseSectionCount)))
  let studentDemand := (I.studentPreferences.filter
      (fun p => p.preferredCourses.contains sec.courseId)).length
  priority.mul ((Score.one).add ((Score.frac 1 1000).mul (Score.ofInt studentDemand)))

/-- `sorted(self.sections.keys(), key=lambda s: -priority[s])`: the stable
sort by non-increasing priority (values stand in for their unique keys). -/
def sortedSections (I : GreedyInput) : List Section :=
  List.insertionSort
    (fun a b => Score.ble (computeSectionPriority I b) (computeSectionPriority I a) = true)
    I.sections

/-- `sorted(self.periods.keys())`. -/
def sortedPeriods (I : GreedyInput) : List String :=
  List.insertionSort (fun a b => pyStrLe a b = true) (I.periods.map (fun p => p.id))

/-- Number of sections of a course already scheduled in a period
(`course_period_usage[period_id]`). -/
def courseCountInPeriod (I : GreedyInput) (st : GreedyState) (courseId pid : String) : Nat :=
  ((I.courseToSections courseId).filter (fun s => lookupSched st s = some pid)).length

/-- Whether some section of the course is already scheduled in the period. -/
def coursePeriodUsed (I : GreedyInput) (st : GreedyState) (courseId pid : String) : Bool :=
  (I.courseToSections courseId).any (fun s => lookupSched st s = some pid)

/-- `sports_med_period_usage`. -/
def sportsMedCountInPeriod (I : GreedyInput) (st : GreedyState) (pid : String) : Nat :=
  ((I.sections.filter (fun s => s.courseId = "Sports Med")).filter
    (fun s => lookupSched st s.id = some pid)).length

/-- Total sections already scheduled in the period. -/
def periodUsage (st : GreedyState) (pid : String) : Nat :=
  (st.scheduledSections.filter (fun kv => kv.2 = pid)).length

/-- Multiplicative shaping applied after the early returns of
`_compute_period_score` (course spread, Sports Med, period balance). -/
def periodScoreShape (I : GreedyInput) (st : GreedyState) (sec : Section)
    (periodId : String) (score : Score) : Score :=
  let k := courseCountInPeriod I st sec.courseId periodId
  let score := if 0 < k
               then score.div ((Score.one).add ((Score.frac 1 2).mul (Score.ofInt k)))
               else score
  let score := if sec.courseId = "Sports Med" ∧ 0 < sportsMedCountInPeriod I st periodId
               then score.mul (Score.frac 1 2) else score
  score.div ((Score.one).add ((Score.frac 1 10).mul (Score.ofInt (periodUsage st periodId))))

/-- Teacher availability and conflict early returns of
`_compute_period_score`, then the shaping factors. -/
def periodScoreTeacherPart (I : GreedyInput) (st : GreedyState) (sec : Section)
    (periodId : String) (score : Score) : Score :=
  match sectionTeacherId sec with
  | some tid =>
      match I.findTeacher tid with
      | some teacher =>
          if teacher.unavailablePeriods.contains periodId then Score.zero
          else if (I.teacherToSections tid).any
              (fun otherSection => lookupSched st otherSection = some periodId) then Score.zero
          else periodScoreShape I st sec periodId score
      | none => periodScoreShape I st sec periodId score
  | none => periodScoreShape I st sec periodId score

/-- `_compute_period_score`. -/
def computePeriodScore (I : GreedyInput) (st : GreedyState) (sec : Section)
    (periodId : String) : Score :=
  match I.specialCoursePeriods sec.courseId with
  | some allowed =>
      if allowed.contains periodId then
        let score := if coursePeriodUsed I st sec.courseId periodId
                     then Score.one else (Score.one).mul (Score.ofInt 2)
        periodScoreTeacherPart I st sec periodId score
      else Score.zero
  | none => periodScoreTeacherPart I st sec periodId Score.one

/-- The best-period fold shared by the three scheduling sweeps:
`best_period = None; best_score = -1; if score > best_score: update`. -/
def bestPeriodFold (I : GreedyInput) (st : GreedyState) (sec : Section) :
    Option String × Score :=
  (sortedPeriods I).foldl
    (fun acc periodId =>
      let score := computePeriodScore I st sec periodId
      if Score.blt acc.2 score then (some periodId, score) else acc)
    (none, Score.ofInt (-1))

/-- One sweep step: `if best_period and best_score > 0:` schedule the
section (string truthiness rejects the empty period id). -/
def scheduleSectionStep (I : GreedyInput) (st : GreedyState) (sec : Section) : GreedyState :=
  match bestPeriodFold I st sec with
  | (some bp, bs) =>
      if bp ≠ "" ∧ Score.blt Score.zero bs then
        { st with scheduledSections := dictSet st.scheduledSections sec.id bp }
      else st
  | (none, _) => st

/-- First sweep: special (restricted) course sections. -/
def schedulePhase1 (I : GreedyInput) (st : GreedyState) : GreedyState :=
  (sortedSections I).foldl
    (fun st sec =>
      if (I.specialCoursePeriods sec.courseId).isSome then scheduleSectionStep I st sec
      else st) st

/-- Second sweep: Sports Med sections not yet scheduled. -/
def schedulePhase2 (I : GreedyInput) (st : GreedyState) : GreedyState :=
  (sortedSections I).foldl
    (fun st sec =>
      if (lookupSched st sec.id).isSome then st
      else if sec.courseId = "Sports Med" then scheduleSectionStep I st sec
      else st) st

/-- Third sweep: all remaining sections. -/
def schedulePhase3 (I : GreedyInput) (st : GreedyState) : GreedyState :=
  (sortedSections I).foldl
    (fun st sec =>
      if (lookupSched st sec.id).isSome then st
      else scheduleSectionStep I st sec) st

/-- `_schedule_sections`. -/
def scheduleSections (I : GreedyInput) (st : GreedyState) : GreedyState :=
  schedulePhase3 I (schedulePhase2 I (schedulePhase1 I st))

def capacityOf (I : GreedyInput) (sid : String) : Int :=
  ((I.findSection sid).map (fun s => s.capacity)).getD 0

/-- Students currently assigned to a section
(`[s for s, secs in self.student_assignments.items() if section_id in secs]`). -/
def sectionStudentsOf (st : GreedyState) (sectionId : String) : List String :=
  (st.studentAssignments.filter (fun kv => kv.2.contains sectionId)).map (fun kv => kv.1)

def powHalf : Nat → Score
  | 0 => Score.one
  | n + 1 => (powHalf n).mul (Score.frac 1 2)

/-- `_compute_student_section_score`. -/
def computeStudentSectionScore (I : GreedyInput) (st : GreedyState)
    (studentId sectionId : String) : Score :=
  match lookupSched st sectionId with
  | none => Score.zero
  | some periodId =>
    match I.findSection sectionId with
    | none => Score.zero
    | some sec =>
      let courseId := sec.courseId
      let studentCourses := (getAssigns st studentId).filterMap
          (fun s => (I.findSection s).map (fun x => x.courseId))
      if studentCourses.contains courseId then Score.zero
      else
        match I.findPref studentId with
        | none => Score.zero
        | some pref =>
          if ¬ pref.preferredCourses.contains courseId then Score.zero
          else
            let studentPeriods := (getAssigns st studentId).map (fun s => lookupSched st s)
            if studentPeriods.contains (some periodId) then Score.zero
            else
              let sectionStudents := sectionStudentsOf st sectionId
              if (sectionStudents.length : Int) ≥ sec.capacity then Score.zero
              else
                let score := Score.one
                let fillFrac := (Score.ofInt sectionStudents.length).div
                    (Score.ofInt sec.capacity)
                let score := score.mul ((Score.frac 11 10).sub fillFrac)
                let score :=
                  if I.spedStudents.contains studentId then
                    let spedCount := (sectionStudents.filter
                        (fun s => I.spedStudents.contains s)).length
                    if 2 ≤ spedCount then score.mul (powHalf (spedCount - 1)) else score
                  else score
                let score := if pref.isRequired courseId
                             then score.mul (Score.ofInt 2) else score
                let remainingSections := (I.courseToSections courseId).filter
                    (fun s => (lookupSched st s).isSome ∧
                      ((sectionStudentsOf st s).length : Int) < capacityOf I s)
                if remainingSections.length ≤ 2
                then score.mul (Score.ofInt 2) else score

/-- Student hardness from `_assign_students`. -/
def computeStudentHardness (I : GreedyInput) (student : Student) : Score :=
  let hardness := Score.one
  let hardness := if student.hasSpecialNeeds then hardness.mul (Score.ofInt 2) else hardness
  match I.findPref student.id with
  | some pref =>
      let hardness := if pref.preferredCourses.any
            (fun c => c = "Medical Career" ∨ c = "Heroes Teach")
          then hardness.mul (Score.frac 3 2) else hardness
      let hardness := hardness.mul
        ((Score.one).add ((Score.frac 1 10).mul (Score.ofInt pref.preferredCourses.length)))
      hardness.mul
        ((Score.one).add ((Score.frac 2 10).mul (Score.ofInt pref.requiredCourses.length)))
  | none => hardness

/-- `sorted(self.students.keys(), key=lambda s: -hardness[s])` (stable). -/
def sortedStudents (I : GreedyInput) : List Student :=
  List.insertionSort
    (fun a b => Score.ble (computeStudentHardness I b) (computeStudentHardness I a) = true)
    I.students

def specialCourses : List String := ["Medical Career", "Heroes Teach", "Sports Med"]

/-- Python `max(xs, key=lambda x: x[1])`: the first element attaining the
maximum (replacement only on strictly greater). -/
def pyMaxBySnd : List (String × Score) → Option (String × Score)
  | [] => none
  | x :: xs => some (xs.foldl (fun acc y => if Score.blt acc.2 y.2 then y else acc) x)

/-- Pass A inner step: one special course for one student. -/
def assignSpecialCourseStep (I : GreedyInput) (st : GreedyState) (studentId : String)
    (pref : StudentPreference) (courseId : String) : GreedyState :=
  if ¬ pref.preferredCourses.contains courseId then st
  else
    let available := (I.courseToSections courseId).filterMap
      (fun sectionId =>
        if (lookupSched st sectionId).isNone then none
        else
          let score := computeStudentSectionScore I st studentId sectionId
          if Score.blt Score.zero score then some (sectionId, score) else none)
    match pyMaxBySnd available with
    | some best => appendAssign st studentId best.1
    | none => st

/-- Pass A: special courses in the fixed order for each student. -/
def assignSpecialPhase (I : GreedyInput) (st : GreedyState) : GreedyState :=
  (sortedStudents I).foldl
    (fun st student =>
      match I.findPref student.id with
      | none => st
      | some pref =>
          specialCourses.foldl
            (fun st c => assignSpecialCourseStep I st student.id pref c) st)
    st

/-- Pass B: best scheduled section of one course
(`best_section = None; best_score = 0; if score > best_score: update`). -/
def bestSectionForCourse (I : GreedyInput) (st : GreedyState)
    (studentId courseId : String) : Option String × Score :=
  (I.courseToSections courseId).foldl
    (fun acc sectionId =>
      if (lookupSched st sectionId).isNone then acc
      else
        let score := computeStudentSectionScore I st studentId sectionId
        if Score.blt acc.2 score then (some sectionId, score) else acc)
    (none, Score.zero)

/-- Pass B for one student: best section per needed course, candidates
sorted by score descending, each re-checked before placement.  (A course
repeated in the preference list yields a duplicate candidate entry whose
re-check scores 0, matching the dict-keyed original.) -/
def assignRegularStudent (I : GreedyInput) (st : GreedyState) (studentId : String) :
    GreedyState :=
  match I.findPref studentId with
  | none => st
  | some pref =>
      let assignedCourses := (getAssigns st studentId).filterMap
          (fun s => (I.findSection s).map (fun x => x.courseId))
      let neededCourses := pref.preferredCourses.filter
          (fun c => ¬ assignedCourses.contains c ∧ ¬ specialCourses.contains c)
      let bestSections := neededCourses.filterMap
          (fun c =>
            match bestSectionForCourse I st studentId c with
            | (some sectionId, score) => some (c, sectionId, score)
            | (none, _) => none)
      let sortedCourses := List.insertionSort
          (fun a b => Score.ble b.2.2 a.2.2 = true) bestSections
      sortedCourses.foldl
        (fun st entry =>
          let score := computeStudentSectionScore I st studentId entry.2.1
          if Score.blt Score.zero score then appendAssign st studentId entry.2.1 else st)
        st

/-- `_assign_students`. -/
def assignStudents (I : GreedyInput) (st : GreedyState) : GreedyState :=
  (sortedStudents I).foldl
    (fun st student => assignRegularStudent I st student.id)
    (assignSpecialPhase I st)

/-- Result sections of `optimize` (fresh `Section` objects with the
scheduled period filled in). -/
def buildResultSections (I : GreedyInput) (st : GreedyState) : List (String × Section) :=
  I.sections.map (fun sec =>
    (sec.id,
      { id := sec.id, courseId := sec.courseId, teacherId := sec.teacherId,
        periodId := lookupSched st sec.id, capacity := sec.capacity, room := sec.room }))

/-- Result assignment set of `optimize`. -/
def buildAssignments (st : GreedyState) : List Assignment :=
  (st.studentAssignments.map (fun kv => kv.2.map (fun sid => Assignment.mk kv.1 sid))).flatten

def greedyRunState (I : GreedyInput) : GreedyState :=
  assignStudents I (scheduleSections I GreedyState.initial)

def greedySchedule (I : GreedyInput) : Schedule :=
  ⟨buildResultSections I (greedyRunState I), buildAssignments (greedyRunState I)⟩

def totalRequests (I : GreedyInput) : Nat :=
  (I.studentPreferences.map (fun p => p.preferredCourses.length)).sum

/-- `GreedyOptimizer.optimize`: after building the schedule the final
logging f-strings compute `section_count/total_sections` and
`total_assignments/total_requests`, so a run with no sections, or with
zero total preferred courses, raises `ZeroDivisionError`. -/
def greedyOptimize (I : GreedyInput) : Except PyExn Schedule :=
  let schedule := greedySchedule I
  if I.sections.length = 0 then .error .zeroDivisionError
  else if totalRequests I = 0 then .error .zeroDivisionError
  else .ok schedule

/-! ## Order lemmas for scores -/

theorem Score.blt_trans {x y z : Score} (hx : 0 < x.den) (hy : 0 < y.den)
    (hz : 0 < z.den) (h1 : Score.blt x y = true) (h2 : Score.blt y z = true) :
    Score.blt x z = true := by
  simp only [Score.blt, decide_eq_true_eq] at h1 h2 ⊢
  nlinarith [mul_lt_mul_of_pos_right h1 hz, mul_lt_mul_of_pos_right h2 hx]

theorem Score.ble_blt_trans {x y z : Score} (hx : 0 < x.den) (hy : 0 < y.den)
    (hz : 0 < z.den) (h1 : Score.ble x y = true) (h2 : Score.blt y z = true) :
    Score.blt x z = true := by
  simp only [Score.ble, Score.blt, decide_eq_true_eq] at h1 h2 ⊢
  nlinarith [mul_le_mul_of_nonneg_right h1 (le_of_lt hz), mul_lt_mul_of_pos_right h2 hx]

theorem Score.blt_false_ble {x y : Score} (h : Score.blt x y = false) :
    Score.ble y x = true := by
  simp only [Score.blt, decide_eq_false_iff_not, not_lt] at h
  simp only [Score.ble, decide_eq_true_eq]
  exact h

theorem Score.ble_total (x y : Score) : Score.ble x y = true ∨ Score.ble y x = true := by
  simp only [Score.ble, decide_eq_true_eq]
  omega

theorem Score.ble_trans {x y z : Score} (hx : 0 < x.den) (hy : 0 < y.den)
    (hz : 0 < z.den) (h1 : Score.ble x y = true) (h2 : Score.ble y z = true) :
    Score.ble x z = true := by
  simp only [Score.ble, decide_eq_true_eq] at h1 h2 ⊢
  nlinarith [mul_le_mul_of_nonneg_right h1 (le_of_lt hz),
    mul_le_mul_of_nonneg_right h2 (le_of_lt hx)]

/-- Python strict `<` on strings. -/
def pyStrLt (a b : String) : Bool := pyStrLe a b && !(pyStrLe b a)

/-! ## C2: the MILP error path -/

/-- C2: the claim says that on a solver error (and on any unacceptable
final status) `MILPOptimizer.optimize` returns an empty `Schedule` rather
than raising.  In fact `Schedule` has no default for its required
`sections` field, so the literal `Schedule()` executed on the error path
(line 521) — and indeed the unconditional `schedule = Schedule()` at
line 532 — raises `TypeError` instead; the method never returns a
schedule at all. -/
theorem c2_optimize_error_path_raises_typeerror :
    milpOptimizeRun .raises = .error .typeError ∧
    (∀ status : Int, milpOptimizeRun (.finished status) = .error .typeError) ∧
    dataclassCallOk scheduleDataclassFields [] = false :=
  ⟨rfl, fun _ => rfl, rfl⟩

/-! ## C7: the greedy crashes on degenerate inputs -/

def c7EmptyInput : GreedyInput := ⟨[], [], [], [], []⟩

def c7NoRequestInput : GreedyInput :=
  ⟨[⟨"ST001", "A", "B", "a@s.edu", 9, false⟩], [],
   [⟨"S001", "MATH101", none, none, 30, none⟩],
   [⟨"P1", "P1", (8, 0), (9, 0), 0⟩],
   [⟨"ST001", [], []⟩]⟩

/-- C7: the claim says `GreedyOptimizer.optimize` is total, including on
an empty section collection or preference lists totalling zero preferred
courses.  The final statistics logging divides by `len(self.sections)`
and by the total number of preferred courses, so exactly those two
inputs raise `ZeroDivisionError`. -/
theorem c7_optimize_zerodivision :
    greedyOptimize c7EmptyInput = .error .zeroDivisionError ∧
    greedyOptimize c7NoRequestInput = .error .zeroDivisionError :=
  ⟨rfl, rfl⟩

/-! ## Characterization of the best-period fold (C8) -/

/-- The loop body `if score > best_score: best_period, best_score = q, score`. -/
def bpStep (f : String → Score) (acc : Option String × Score) (q : String) :
    Option String × Score :=
  let score := f q
  if Score.blt acc.2 score then (some q, score) else acc

theorem bpFold_characterization (f : String → Score) (hf : ∀ q, 0 < (f q).den)
    (l : List String) (acc : Option String × Score) (hacc : 0 < acc.2.den) :
    (l.foldl (bpStep f) acc = acc ∧ ∀ q ∈ l, Score.blt acc.2 (f q) = false) ∨
    (∃ l1 p l2, l = l1 ++ p :: l2 ∧
      l.foldl (bpStep f) acc = (some p, f p) ∧
      Score.blt acc.2 (f p) = true ∧
      (∀ q ∈ l1, Score.blt (f q) (f p) = true) ∧
      (∀ q ∈ l2, Score.blt (f p) (f q) = false)) := by
  induction l generalizing acc with
  | nil => left; exact ⟨rfl, by simp⟩
  | cons q l ih =>
    rw [List.foldl_cons]
    by_cases hb : Score.blt acc.2 (f q) = true
    · have hstep : bpStep f acc q = (some q, f q) := by
        simp [bpStep, hb]
      rw [hstep]
      rcases ih (some q, f q) (hf q) with ⟨he, hall⟩ | ⟨l1, p, l2, hsplit, hfold, hpos, hl1, hl2⟩
      · right
        exact ⟨[], q, l, by simp, he, hb, by simp, hall⟩
      · right
        refine ⟨q :: l1, p, l2, by simp [hsplit], hfold, ?_, ?_, hl2⟩
        · exact Score.blt_trans hacc (hf q) (hf p) hb hpos
        · intro r hr
          rcases List.mem_cons.mp hr with h | h
          · subst h; exact hpos
          · exact hl1 r h
    · have hb' : Score.blt acc.2 (f q) = false := by
        cases h : Score.blt acc.2 (f q)
        · rfl
        · exact absurd h hb
      have hstep : bpStep f acc q = acc := by
        simp [bpStep, hb']
      rw [hstep]
      rcases ih acc hacc with ⟨he, hall⟩ | ⟨l1, p, l2, hsplit, hfold, hpos, hl1, hl2⟩
      · left
        refine ⟨he, ?_⟩
        intro r hr
        rcases List.mem_cons.mp hr with h | h
        · subst h; exact hb'
        · exact hall r h
      · right
        refine ⟨q :: l1, p, l2, by simp [hsplit], hfold, hpos, ?_, hl2⟩
        intro r hr
        rcases List.mem_cons.mp hr with h | h
        · subst h
          exact Score.ble_blt_trans (hf r) hacc (hf p) (Score.blt_false_ble hb') hpos
        · exact hl1 r h

/-! ## Denominator positivity of the computed scores -/

theorem periodScoreShape_den_pos (I : GreedyInput) (st : GreedyState) (sec : Section)
    (pid : String) (s : Score) : 0 < (periodScoreShape I st sec pid s).den :=
  Score.div_den_pos _ _

theorem periodScoreTeacherPart_den_pos (I : GreedyInput) (st : GreedyState) (sec : Section)
    (pid : String) (s : Score) : 0 < (periodScoreTeacherPart I st sec pid s).den := by
  unfold periodScoreTeacherPart
  split
  · split
    · split
      · show (0 : Int) < 1
        omega
      · split
        · show (0 : Int) < 1
          omega
        · exact periodScoreShape_den_pos _ _ _ _ _
    · exact periodScoreShape_den_pos _ _ _ _ _
  · exact periodScoreShape_den_pos _ _ _ _ _

theorem computePeriodScore_den_pos (I : GreedyInput) (st : GreedyState) (sec : Section)
    (pid : String) : 0 < (computePeriodScore I st sec pid).den := by
  unfold computePeriodScore
  split
  · split
    · exact periodScoreTeacherPart_den_pos _ _ _ _ _
    · show (0 : Int) < 1
      omega
  · exact periodScoreTeacherPart_den_pos _ _ _ _ _

theorem computeSectionPriority_den_pos (I : GreedyInput) (sec : Section) :
    0 < (computeSectionPriority I sec).den :=
  Score.mul_den_pos _ _

theorem computeStudentHardness_den_pos (I : GreedyInput) (student : Student) :
    0 < (computeStudentHardness I student).den := by
  unfold computeStudentHardness
  split <;> split <;>
    first
      | exact Score.mul_den_pos _ _
      | · show (0 : Int) < 1
          omega

/-! ## Stable sort produces a pairwise-sorted permutation -/

theorem orderedInsert_pairwise {α : Type} {r : α → α → Prop} [DecidableRel r]
    (htot : ∀ a b, r a b ∨ r b a) (htrans : ∀ a b c, r a b → r b c → r a c)
    (a : α) : ∀ l : List α, l.Pairwise r → (l.orderedInsert r a).Pairwise r := by
  intro l
  induction l with
  | nil => intro _; simp
  | cons b bs ih =>
    intro hl
    rw [List.orderedInsert]
    rcases List.pairwise_cons.mp hl with ⟨hb, hbs⟩
    by_cases h : r a b
    · rw [if_pos h]
      refine List.pairwise_cons.mpr ⟨?_, hl⟩
      intro y hy
      rcases List.mem_cons.mp hy with h1 | h1
      · subst h1; exact h
      · exact htrans a b y h (hb y h1)
    · rw [if_neg h]
      have hba : r b a := (htot a b).resolve_left h
      refine List.pairwise_cons.mpr ⟨?_, ih hbs⟩
      intro y hy
      have : y ∈ a :: bs := (List.perm_orderedInsert r a bs).subset hy
      rcases List.mem_cons.mp this with h1 | h1
      · subst h1; exact hba
      · exact hb y h1

theorem insertionSort_pairwise {α : Type} {r : α → α → Prop} [DecidableRel r]
    (htot : ∀ a b, r a b ∨ r b a) (htrans : ∀ a b c, r a b → r b c → r a c) :
    ∀ l : List α, (List.insertionSort r l).Pairwise r := by
  intro l
  induction l with
  | nil => simp
  | cons x xs ih =>
    rw [List.insertionSort]
    exact orderedInsert_pairwise htot htrans x _ ih

/-! ## C8: iteration order and tie-breaks -/

/-- Modelled from the specification text, for comparison with the code:
among the periods whose score is positive, pick the strictly highest
score, breaking ties by period NAME ascending. -/
def specTieBreakChoice (I : GreedyInput) (st : GreedyState) (sec : Section) :
    Option String :=
  (I.periods.foldl
    (fun acc p =>
      let score := computePeriodScore I st sec p.id
      if Score.blt Score.zero score then
        match acc with
        | none => some (p, score)
        | some (bp, bs) =>
            if Score.blt bs score then some (p, score)
            else if Score.ble bs score && Score.ble score bs && pyStrLt p.name bp.name
            then some (p, score)
            else acc
      else acc)
    none).map (fun x => x.1.id)

def c8Input : GreedyInput :=
  ⟨[], [],
   [⟨"SEC1", "MATH101", none, none, 30, none⟩],
   [⟨"PA", "ZZ", (8, 0), (9, 0), 0⟩, ⟨"PB", "AA", (9, 0), (10, 0), 0⟩],
   []⟩

/-- C8 counterexample: with two periods of equal score whose id order
("PA" < "PB") is opposite to their name order ("AA" < "ZZ"), the code
iterates `sorted(self.periods.keys())` and schedules the section into
period id "PA" (name "ZZ"), while the claimed name-ascending tie-break
selects "PB" (name "AA"). -/
theorem c8_counterexample :
    lookupSched (scheduleSections c8Input GreedyState.initial) "SEC1" = some "PA" ∧
    specTieBreakChoice c8Input GreedyState.initial
      ⟨"SEC1", "MATH101", none, none, 30, none⟩ = some "PB" ∧
    ("PA" : String) ≠ "PB" :=
  ⟨by decide, by decide, by decide⟩

theorem scheduleSectionStep_none (I : GreedyInput) (st : GreedyState) (sec : Section)
    (bs : Score) (h : bestPeriodFold I st sec = (none, bs)) :
    scheduleSectionStep I st sec = st := by
  unfold scheduleSectionStep
  rw [h]

theorem scheduleSectionStep_pos (I : GreedyInput) (st : GreedyState) (sec : Section)
    (p : String) (bs : Score) (h : bestPeriodFold I st sec = (some p, bs))
    (hc : p ≠ "" ∧ Score.blt Score.zero bs = true) :
    scheduleSectionStep I st sec =
      { st with scheduledSections := dictSet st.scheduledSections sec.id p } := by
  unfold scheduleSectionStep
  rw [h]
  exact if_pos hc

theorem scheduleSectionStep_neg (I : GreedyInput) (st : GreedyState) (sec : Section)
    (p : String) (bs : Score) (h : bestPeriodFold I st sec = (some p, bs))
    (hc : ¬(p ≠ "" ∧ Score.blt Score.zero bs = true)) :
    scheduleSectionStep I st sec = st := by
  unfold scheduleSectionStep
  rw [h]
  exact if_neg hc

/-- C8 (amended): each sweep places a section in the first period — in
ascending period-ID order (ties in score go to the smaller id, not the
smaller name) — whose score strictly exceeds every earlier score and is
at least every later one, and only when that best score is positive;
sections are processed in an order that is a permutation of the catalog
pairwise sorted by non-increasing priority (Python's stable sort), and
students likewise by non-increasing hardness (ties keep dict insertion
order, not id order). -/
theorem c8_amended_deterministic_order :
    (∀ (I : GreedyInput) (st : GreedyState) (sec : Section) (p : String) (s : Score),
      bestPeriodFold I st sec = (some p, s) →
      ∃ l1 l2, sortedPeriods I = l1 ++ p :: l2 ∧
        s = computePeriodScore I st sec p ∧
        (∀ q ∈ l1, Score.blt (computePeriodScore I st sec q) s = true) ∧
        (∀ q ∈ l2, Score.blt s (computePeriodScore I st sec q) = false)) ∧
    (∀ I : GreedyInput,
      (sortedPeriods I).Pairwise (fun a b => pyStrLe a b = true) ∧
      (sortedPeriods I).Perm (I.periods.map (fun p => p.id))) ∧
    (∀ I : GreedyInput,
      (sortedSections I).Pairwise (fun a b =>
        Score.ble (computeSectionPriority I b) (computeSectionPriority I a) = true) ∧
      (sortedSections I).Perm I.sections) ∧
    (∀ I : GreedyInput,
      (sortedStudents I).Pairwise (fun a b =>
        Score.ble (computeStudentHardness I b) (computeStudentHardness I a) = true) ∧
      (sortedStudents I).Perm I.students) ∧
    (∀ (I : GreedyInput) (st : GreedyState) (sec : Section),
      scheduleSectionStep I st sec = st ∨
      ∃ p s, bestPeriodFold I st sec = (some p, s) ∧ Score.blt Score.zero s = true ∧
        p ≠ "" ∧
        scheduleSectionStep I st sec =
          { st with scheduledSections := dictSet st.scheduledSections sec.id p }) := by
  refine ⟨?_, ?_, ?_, ?_, ?_⟩
  · intro I st sec p s h
    have hbp : bestPeriodFold I st sec =
        (sortedPeriods I).foldl (bpStep (fun q => computePeriodScore I st sec q))
          (none, Score.ofInt (-1)) := rfl
    rcases bpFold_characterization (fun q => computePeriodScore I st sec q)
        (fun q => computePeriodScore_den_pos I st sec q) (sortedPeriods I)
        (none, Score.ofInt (-1)) (by show (0 : Int) < 1; omega) with
      ⟨he, _⟩ | ⟨l1, p', l2, hsplit, hfold, _, hl1, hl2⟩
    · rw [hbp, he] at h
      exact absurd (congrArg Prod.fst h) (by simp)
    · rw [hbp, hfold] at h
      have hp : p' = p := by
        have := congrArg Prod.fst h
        simpa using this
      subst hp
      have hs : s = computePeriodScore I st sec p' := by
        have := congrArg Prod.snd h
        exact this.symm
      refine ⟨l1, l2, hsplit, hs, ?_, ?_⟩
      · intro q hq
        rw [hs]
        exact hl1 q hq
      · intro q hq
        rw [hs]
        exact hl2 q hq
  · intro I
    constructor
    · exact insertionSort_pairwise
        (fun a b => natListLe_total (strKey a) (strKey b))
        (fun a b c hab hbc => natListLe_trans hab hbc) _
    · exact List.perm_insertionSort _ _
  · intro I
    constructor
    · exact insertionSort_pairwise
        (fun a b => Score.ble_total (computeSectionPriority I b) (computeSectionPriority I a))
        (fun a b c hab hbc => Score.ble_trans (computeSectionPriority_den_pos I c)
          (computeSectionPriority_den_pos I b) (computeSectionPriority_den_pos I a) hbc hab) _
    · exact List.perm_insertionSort _ _
  · intro I
    constructor
    · exact insertionSort_pairwise
        (fun a b => Score.ble_total (computeStudentHardness I b) (computeStudentHardness I a))
        (fun a b c hab hbc => Score.ble_trans (computeStudentHardness_den_pos I c)
          (computeStudentHardness_den_pos I b) (computeStudentHardness_den_pos I a) hbc hab) _
    · exact List.perm_insertionSort _ _
  · intro I st sec
    match h : bestPeriodFold I st sec with
    | (none, bs) => exact Or.inl (scheduleSectionStep_none I st sec bs h)
    | (some p, bs) =>
      by_cases hc : p ≠ "" ∧ Score.blt Score.zero bs = true
      · exact Or.inr ⟨p, bs, rfl, hc.2, hc.1, scheduleSectionStep_pos I st sec p bs h hc⟩
      · exact Or.inl (scheduleSectionStep_neg I st sec p bs h hc)

/-- Witness for the amended C8 at the concrete input `c8Input`: the fold
returns period "PA" and the characterization instantiates there. -/
theorem c8_amended_deterministic_order_witness :
    bestPeriodFold c8Input GreedyState.initial
      ⟨"SEC1", "MATH101", none, none, 30, none⟩ = (some "PA", ⟨10, 10⟩) ∧
    ∃ l1 l2, sortedPeriods c8Input = l1 ++ "PA" :: l2 ∧
      (⟨10, 10⟩ : Score) = computePeriodScore c8Input GreedyState.initial
        ⟨"SEC1", "MATH101", none, none, 30, none⟩ "PA" ∧
      (∀ q ∈ l1, Score.blt (computePeriodScore c8Input GreedyState.initial
        ⟨"SEC1", "MATH101", none, none, 30, none⟩ q) ⟨10, 10⟩ = true) ∧
      (∀ q ∈ l2, Score.blt (⟨10, 10⟩ : Score) (computePeriodScore c8Input GreedyState.initial
        ⟨"SEC1", "MATH101", none, none, 30, none⟩ q) = false) :=
  ⟨by decide,
   c8_amended_deterministic_order.1 c8Input GreedyState.initial
     ⟨"SEC1", "MATH101", none, none, 30, none⟩ "PA" ⟨10, 10⟩ (by decide)⟩

/-! ## C4: hard-constraint invariants of the greedy schedule

Supporting association-list lemmas first. -/

theorem find?_eq_of_nodup_key {α : Type} {β : Type} [DecidableEq β] (f : α → β) :
    ∀ (l : List α), (l.map f).Nodup → ∀ a ∈ l,
      l.find? (fun x => decide (f x = f a)) = some a := by
  intro l
  induction l with
  | nil => simp
  | cons x xs ih =>
    intro hnd a ha
    rw [List.map_cons] at hnd
    have hnd' := List.nodup_cons.mp hnd
    rcases List.mem_cons.mp ha with rfl | ha'
    · exact List.find?_cons_of_pos _ (by simp)
    · have hfa : f a ∈ xs.map f := List.mem_map_of_mem f ha'
      have hne : ¬(decide (f x = f a) = true) := by
        simp only [decide_eq_true_eq]
        intro h
        exact hnd'.1 (by rw [h]; exact hfa)
      rw [List.find?_cons_of_neg (p := fun y => decide (f y = f a)) xs hne]
      exact ih hnd'.2 a ha'

theorem findSection_of_nodup {I : GreedyInput}
    (hI : (I.sections.map (fun s => s.id)).Nodup) {sec : Section}
    (hmem : sec ∈ I.sections) : I.findSection sec.id = some sec :=
  find?_eq_of_nodup_key (fun s : Section => s.id) I.sections hI sec hmem

theorem findTeacher_of_nodup {I : GreedyInput}
    (hI : (I.teachers.map (fun t => t.id)).Nodup) {t : Teacher}
    (hmem : t ∈ I.teachers) : I.findTeacher t.id = some t :=
  find?_eq_of_nodup_key (fun t : Teacher => t.id) I.teachers hI t hmem

theorem lookupSched_of_nodup_mem {st : GreedyState}
    (hnd : (st.scheduledSections.map Prod.fst).Nodup) {kv : String × String}
    (hmem : kv ∈ st.scheduledSections) : lookupSched st kv.1 = some kv.2 := by
  unfold lookupSched
  rw [find?_eq_of_nodup_key Prod.fst st.scheduledSections hnd kv hmem]
  rfl

theorem lookupSched_mem {st : GreedyState} {sid pid : String}
    (h : lookupSched st sid = some pid) :
    ∃ kv ∈ st.scheduledSections, kv.1 = sid ∧ kv.2 = pid := by
  unfold lookupSched at h
  cases hf : st.scheduledSections.find? (fun kv => kv.1 = sid) with
  | none => rw [hf] at h; exact absurd h (by simp)
  | some kv =>
    rw [hf] at h
    refine ⟨kv, List.mem_of_find?_eq_some hf, ?_, ?_⟩
    · have := List.find?_some hf
      simpa using this
    · simpa using h

theorem dictSet_fresh {l : List (String × String)} {k v : String}
    (h : ∀ kv ∈ l, kv.1 ≠ k) : dictSet l k v = l ++ [(k, v)] := by
  induction l with
  | nil => rfl
  | cons x xs ih =>
    rw [dictSet]
    rw [if_neg (h x (List.mem_cons_self x xs))]
    rw [List.cons_append]
    congr 1
    exact ih (fun kv hkv => h kv (List.mem_cons_of_mem x hkv))

/-- Teacher of a section id through the preprocessed maps. -/
def sidTeacher (I : GreedyInput) (sid : String) : Option String :=
  (I.findSection sid).bind sectionTeacherId

/-- Course of a section id. -/
def courseOfSid (I : GreedyInput) (sid : String) : Option String :=
  (I.findSection sid).map (fun s => s.courseId)

/-! Positivity gates of `_compute_period_score`: a positive score implies
that none of the zero early returns was taken. -/

theorem periodScore_pos_teacherPart (I : GreedyInput) (st : GreedyState) (sec : Section)
    (pid : String)
    (h : Score.blt Score.zero (computePeriodScore I st sec pid) = true) :
    ∃ s, Score.blt Score.zero (periodScoreTeacherPart I st sec pid s) = true := by
  unfold computePeriodScore at h
  cases hsp : I.specialCoursePeriods sec.courseId with
  | none =>
    simp only [hsp] at h
    exact ⟨Score.one, h⟩
  | some allowed =>
    simp only [hsp] at h
    by_cases hc : allowed.contains pid = true
    · rw [if_pos hc] at h
      exact ⟨_, h⟩
    · rw [if_neg hc] at h
      exact absurd h (by decide)

theorem periodScore_pos_restriction_ok (I : GreedyInput) (st : GreedyState) (sec : Section)
    (pid : String)
    (h : Score.blt Score.zero (computePeriodScore I st sec pid) = true) :
    ∀ allowed, I.specialCoursePeriods sec.courseId = some allowed →
      allowed.contains pid = true := by
  intro allowed ha
  unfold computePeriodScore at h
  simp only [ha] at h
  by_cases hc : allowed.contains pid = true
  · exact hc
  · rw [if_neg hc] at h
    exact absurd h (by decide)

theorem teacherPart_pos_ok (I : GreedyInput) (st : GreedyState) (sec : Section)
    (pid : String) (s : Score)
    (h : Score.blt Score.zero (periodScoreTeacherPart I st sec pid s) = true)
    (tid : String) (teacher : Teacher) (ht : sectionTeacherId sec = some tid)
    (hf : I.findTeacher tid = some teacher) :
    teacher.unavailablePeriods.contains pid = false ∧
    ∀ os ∈ I.teacherToSections tid, ¬(lookupSched st os = some pid) := by
  unfold periodScoreTeacherPart at h
  simp only [ht, hf] at h
  by_cases h1 : teacher.unavailablePeriods.contains pid = true
  · rw [if_pos h1] at h
    exact absurd h (by decide)
  · rw [if_neg h1] at h
    by_cases h2 : ((I.teacherToSections tid).any
        (fun otherSection => lookupSched st otherSection = some pid)) = true
    · rw [if_pos h2] at h
      exact absurd h (by decide)
    · constructor
      · simpa using h1
      · intro os hos hlk
        exact h2 (List.any_eq_true.mpr ⟨os, hos, by simpa using hlk⟩)

theorem periodScore_pos_teacher_ok (I : GreedyInput) (st : GreedyState) (sec : Section)
    (pid : String)
    (h : Score.blt Score.zero (computePeriodScore I st sec pid) = true)
    (tid : String) (teacher : Teacher) (ht : sectionTeacherId sec = some tid)
    (hf : I.findTeacher tid = some teacher) :
    teacher.unavailablePeriods.contains pid = false ∧
    ∀ os ∈ I.teacherToSections tid, ¬(lookupSched st os = some pid) := by
  obtain ⟨s, hs⟩ := periodScore_pos_teacherPart I st sec pid h
  exact teacherPart_pos_ok I st sec pid s hs tid teacher ht hf

/-- Positivity gate of `_compute_student_section_score`: a positive score
implies every feasibility early-return was passed. -/
theorem studentScore_pos_spec (I : GreedyInput) (st : GreedyState) (uid sid : String)
    (h : Score.blt Score.zero (computeStudentSectionScore I st uid sid) = true) :
    ∃ pid sec pref,
      lookupSched st sid = some pid ∧
      I.findSection sid = some sec ∧
      I.findPref uid = some pref ∧
      (∀ s ∈ getAssigns st uid, courseOfSid I s ≠ some sec.courseId) ∧
      pref.preferredCourses.contains sec.courseId = true ∧
      (∀ s ∈ getAssigns st uid, lookupSched st s ≠ some pid) ∧
      ((sectionStudentsOf st sid).length : Int) < sec.capacity ∧
      sid ∉ getAssigns st uid := by
  unfold computeStudentSectionScore at h
  cases hl : lookupSched st sid with
  | none => simp only [hl] at h; exact absurd h (by decide)
  | some pid =>
    simp only [hl] at h
    cases hfs : I.findSection sid with
    | none => simp only [hfs] at h; exact absurd h (by decide)
    | some sec =>
      simp only [hfs] at h
      by_cases hcourse : ((getAssigns st uid).filterMap
          (fun s => (I.findSection s).map (fun x => x.courseId))).contains sec.courseId = true
      · rw [if_pos hcourse] at h
        exact absurd h (by decide)
      · rw [if_neg hcourse] at h
        cases hfp : I.findPref uid with
        | none => simp only [hfp] at h; exact absurd h (by decide)
        | some pref =>
          simp only [hfp] at h
          by_cases hpref : pref.preferredCourses.contains sec.courseId = true
          · rw [if_neg (not_not_intro hpref)] at h
            by_cases hper : ((getAssigns st uid).map
                (fun s => lookupSched st s)).contains (some pid) = true
            · rw [if_pos hper] at h
              exact absurd h (by decide)
            · rw [if_neg hper] at h
              by_cases hfull : ((sectionStudentsOf st sid).length : Int) ≥ sec.capacity
              · rw [if_pos hfull] at h
                exact absurd h (by decide)
              · have hcourses : ∀ s ∈ getAssigns st uid,
                    courseOfSid I s ≠ some sec.courseId := by
                  intro s hs hc
                  apply hcourse
                  have : sec.courseId ∈ (getAssigns st uid).filterMap
                      (fun s => (I.findSection s).map (fun x => x.courseId)) :=
                    List.mem_filterMap.mpr ⟨s, hs, hc⟩
                  simpa using this
                have hperiods : ∀ s ∈ getAssigns st uid,
                    lookupSched st s ≠ some pid := by
                  intro s hs hp
                  apply hper
                  have : (some pid) ∈ (getAssigns st uid).map
                      (fun s => lookupSched st s) :=
                    List.mem_map.mpr ⟨s, hs, hp⟩
                  simpa using this
                refine ⟨pid, sec, pref, rfl, rfl, rfl, hcourses, hpref, hperiods,
                  by omega, ?_⟩
                intro hmem
                exact hcourses sid hmem (by rw [courseOfSid, hfs]; rfl)
          · rw [if_pos hpref] at h
            exact absurd h (by decide)

/-- Invariant maintained by the section-scheduling sweeps. -/
structure SchedInv (I : GreedyInput) (st : GreedyState) : Prop where
  keysNodup : (st.scheduledSections.map Prod.fst).Nodup
  keysExist : ∀ kv ∈ st.scheduledSections, ∃ sec ∈ I.sections, sec.id = kv.1
  noConflict : st.scheduledSections.Pairwise (fun kv1 kv2 =>
    ∀ tid, sidTeacher I kv1.1 = some tid → sidTeacher I kv2.1 = some tid →
      (I.findTeacher tid).isSome = true → kv1.2 ≠ kv2.2)
  available : ∀ kv ∈ st.scheduledSections, ∀ tid teacher,
    sidTeacher I kv.1 = some tid → I.findTeacher tid = some teacher →
    teacher.unavailablePeriods.contains kv.2 = false

theorem bestPeriodFold_some_score (I : GreedyInput) (st : GreedyState) (sec : Section)
    (p : String) (bs : Score) (h : bestPeriodFold I st sec = (some p, bs)) :
    bs = computePeriodScore I st sec p := by
  have hbp : bestPeriodFold I st sec =
      (sortedPeriods I).foldl (bpStep (fun q => computePeriodScore I st sec q))
        (none, Score.ofInt (-1)) := rfl
  rcases bpFold_characterization (fun q => computePeriodScore I st sec q)
      (fun q => computePeriodScore_den_pos I st sec q) (sortedPeriods I)
      (none, Score.ofInt (-1)) (by show (0 : Int) < 1; omega) with
    ⟨he, _⟩ | ⟨l1, p', l2, _, hfold, _, _, _⟩
  · rw [hbp, he] at h
    exact absurd (congrArg Prod.fst h) (by simp)
  · rw [hbp, hfold] at h
    obtain rfl : p' = p := by simpa using congrArg Prod.fst h
    exact (congrArg Prod.snd h).symm

/-- A section id with a teacher resolved in `I` belongs to that teacher's
`teacher_to_sections` list. -/
theorem mem_teacherToSections_of_sidTeacher {I : GreedyInput} {sid tid : String}
    (h : sidTeacher I sid = some tid) : sid ∈ I.teacherToSections tid := by
  unfold sidTeacher at h
  cases hfs : I.findSection sid with
  | none => rw [hfs] at h; exact absurd h (by simp)
  | some sec1 =>
    rw [hfs] at h
    have hmem : sec1 ∈ I.sections := List.mem_of_find?_eq_some hfs
    have hid : sec1.id = sid := by
      have := List.find?_some hfs
      simpa using this
    unfold GreedyInput.teacherToSections
    rw [← hid]
    refine List.mem_map.mpr ⟨sec1, ?_, rfl⟩
    refine List.mem_filter.mpr ⟨hmem, ?_⟩
    simpa using h

theorem scheduleSectionStep_schedInv (I : GreedyInput) (st : GreedyState) (sec : Section)
    (hI : (I.sections.map (fun s => s.id)).Nodup)
    (hmem : sec ∈ I.sections)
    (hfresh : ∀ kv ∈ st.scheduledSections, kv.1 ≠ sec.id)
    (hinv : SchedInv I st) :
    SchedInv I (scheduleSectionStep I st sec) ∧
    ∀ kv ∈ (scheduleSectionStep I st sec).scheduledSections,
      kv ∈ st.scheduledSections ∨ kv.1 = sec.id := by
  match hbp : bestPeriodFold I st sec with
  | (none, bs) =>
    rw [scheduleSectionStep_none I st sec bs hbp]
    exact ⟨hinv, fun kv hkv => Or.inl hkv⟩
  | (some p, bs) =>
    by_cases hc : p ≠ "" ∧ Score.blt Score.zero bs = true
    · rw [scheduleSectionStep_pos I st sec p bs hbp hc]
      have hscore : Score.blt Score.zero (computePeriodScore I st sec p) = true := by
        rw [← bestPeriodFold_some_score I st sec p bs hbp]
        exact hc.2
      have hds : dictSet st.scheduledSections sec.id p =
          st.scheduledSections ++ [(sec.id, p)] := dictSet_fresh hfresh
      rw [hds]
      have hteq : sidTeacher I sec.id = sectionTeacherId sec := by
        unfold sidTeacher
        rw [findSection_of_nodup hI hmem]
        rfl
      constructor
      · constructor
        · rw [List.map_append, List.nodup_append]
          refine ⟨hinv.keysNodup, by simp, ?_⟩
          intro k hk1 hk2
          obtain ⟨kv, hkv, hfst⟩ := List.mem_map.mp hk1
          have hk : k = sec.id := by simpa using hk2
          exact hfresh kv hkv (by rw [hfst, hk])
        · intro kv hkv
          rcases List.mem_append.mp hkv with h1 | h1
          · exact hinv.keysExist kv h1
          · have : kv = (sec.id, p) := by simpa using h1
            exact ⟨sec, hmem, by rw [this]⟩
        · rw [List.pairwise_append]
          refine ⟨hinv.noConflict, by simp, ?_⟩
          intro kv hkv b hb
          have hbeq : b = (sec.id, p) := by simpa using hb
          subst hbeq
          intro tid h1 h2 h3
          have hsec_t : sectionTeacherId sec = some tid := by
            rw [← hteq]
            exact h2
          obtain ⟨teacher, hft⟩ := Option.isSome_iff_exists.mp h3
          obtain ⟨hunav, hconf⟩ :=
            periodScore_pos_teacher_ok I st sec p hscore tid teacher hsec_t hft
          have hkv_mem : kv.1 ∈ I.teacherToSections tid :=
            mem_teacherToSections_of_sidTeacher h1
          have hlk : lookupSched st kv.1 = some kv.2 :=
            lookupSched_of_nodup_mem hinv.keysNodup hkv
          intro hkvp
          exact hconf kv.1 hkv_mem (by rw [hlk, hkvp])
        · intro kv hkv tid teacher h1 h2
          rcases List.mem_append.mp hkv with hm | hm
          · exact hinv.available kv hm tid teacher h1 h2
          · have hbeq : kv = (sec.id, p) := by simpa using hm
            subst hbeq
            have hsec_t : sectionTeacherId sec = some tid := by
              rw [← hteq]
              exact h1
            obtain ⟨hunav, _⟩ :=
              periodScore_pos_teacher_ok I st sec p hscore tid teacher hsec_t h2
            exact hunav
      · intro kv hkv
        rcases List.mem_append.mp hkv with h1 | h1
        · exact Or.inl h1
        · have : kv = (sec.id, p) := by simpa using h1
          exact Or.inr (by rw [this])
    · rw [scheduleSectionStep_neg I st sec p bs hbp hc]
      exact ⟨hinv, fun kv hkv => Or.inl hkv⟩

theorem phase1_fold_schedInv (I : GreedyInput)
    (hI : (I.sections.map (fun s => s.id)).Nodup) :
    ∀ (l : List Section) (st : GreedyState),
      (∀ sec ∈ l, sec ∈ I.sections) → ((l.map (fun s => s.id)).Nodup) →
      (∀ sec ∈ l, ∀ kv ∈ st.scheduledSections, kv.1 ≠ sec.id) →
      SchedInv I st →
      SchedInv I (l.foldl (fun st sec =>
        if (I.specialCoursePeriods sec.courseId).isSome then scheduleSectionStep I st sec
        else st) st) := by
  intro l
  induction l with
  | nil => intro st _ _ _ hinv; exact hinv
  | cons sec l ih =>
    intro st hmem hnd hfresh hinv
    rw [List.foldl_cons]
    rw [List.map_cons] at hnd
    have hnd' := List.nodup_cons.mp hnd
    by_cases hc : (I.specialCoursePeriods sec.courseId).isSome = true
    · rw [if_pos hc]
      obtain ⟨hinv', hsub⟩ := scheduleSectionStep_schedInv I st sec hI
        (hmem sec (List.mem_cons_self sec l)) (hfresh sec (List.mem_cons_self sec l)) hinv
      refine ih _ (fun s hs => hmem s (List.mem_cons_of_mem _ hs)) hnd'.2 ?_ hinv'
      intro s hs kv hkv
      rcases hsub kv hkv with h1 | h1
      · exact hfresh s (List.mem_cons_of_mem _ hs) kv h1
      · rw [h1]
        intro hcontra
        have hsid : s.id ∈ l.map (fun s => s.id) := List.mem_map_of_mem _ hs
        exact hnd'.1 (by rw [hcontra]; exact hsid)
    · rw [if_neg hc]
      exact ih st (fun s hs => hmem s (List.mem_cons_of_mem _ hs)) hnd'.2
        (fun s hs => hfresh s (List.mem_cons_of_mem _ hs)) hinv

/-- Freshness is implied by the already-scheduled check of the later sweeps. -/
theorem fresh_of_not_isSome {st : GreedyState} {sid : String}
    (hc : ¬(lookupSched st sid).isSome = true) :
    ∀ kv ∈ st.scheduledSections, kv.1 ≠ sid := by
  intro kv hkv
  have hnone : st.scheduledSections.find? (fun kv => kv.1 = sid) = none := by
    unfold lookupSched at hc
    cases hf : st.scheduledSections.find? (fun kv => kv.1 = sid) with
    | none => rfl
    | some kv' => rw [hf] at hc; simp at hc
  have := List.find?_eq_none.mp hnone kv hkv
  simpa using this

theorem phase2_fold_schedInv (I : GreedyInput)
    (hI : (I.sections.map (fun s => s.id)).Nodup) :
    ∀ (l : List Section) (st : GreedyState),
      (∀ sec ∈ l, sec ∈ I.sections) → SchedInv I st →
      SchedInv I (l.foldl (fun st sec =>
        if (lookupSched st sec.id).isSome then st
        else if sec.courseId = "Sports Med" then scheduleSectionStep I st sec
        else st) st) := by
  intro l
  induction l with
  | nil => intro st _ hinv; exact hinv
  | cons sec l ih =>
    intro st hmem hinv
    rw [List.foldl_cons]
    by_cases hc : (lookupSched st sec.id).isSome = true
    · rw [if_pos hc]
      exact ih st (fun s hs => hmem s (List.mem_cons_of_mem _ hs)) hinv
    · rw [if_neg hc]
      by_cases hsm : sec.courseId = "Sports Med"
      · rw [if_pos hsm]
        exact ih _ (fun s hs => hmem s (List.mem_cons_of_mem _ hs))
          (scheduleSectionStep_schedInv I st sec hI (hmem sec (List.mem_cons_self sec l))
            (fresh_of_not_isSome hc) hinv).1
      · rw [if_neg hsm]
        exact ih st (fun s hs => hmem s (List.mem_cons_of_mem _ hs)) hinv

theorem phase3_fold_schedInv (I : GreedyInput)
    (hI : (I.sections.map (fun s => s.id)).Nodup) :
    ∀ (l : List Section) (st : GreedyState),
      (∀ sec ∈ l, sec ∈ I.sections) → SchedInv I st →
      SchedInv I (l.foldl (fun st sec =>
        if (lookupSched st sec.id).isSome then st
        else scheduleSectionStep I st sec) st) := by
  intro l
  induction l with
  | nil => intro st _ hinv; exact hinv
  | cons sec l ih =>
    intro st hmem hinv
    rw [List.foldl_cons]
    by_cases hc : (lookupSched st sec.id).isSome = true
    · rw [if_pos hc]
      exact ih st (fun s hs => hmem s (List.mem_cons_of_mem _ hs)) hinv
    · rw [if_neg hc]
      exact ih _ (fun s hs => hmem s (List.mem_cons_of_mem _ hs))
        (scheduleSectionStep_schedInv I st sec hI (hmem sec (List.mem_cons_self sec l))
          (fresh_of_not_isSome hc) hinv).1

theorem sortedSections_mem (I : GreedyInput) : ∀ sec ∈ sortedSections I, sec ∈ I.sections :=
  fun sec hs => (List.perm_insertionSort _ I.sections).subset hs

theorem sortedSections_nodup (I : GreedyInput)
    (hI : (I.sections.map (fun s => s.id)).Nodup) :
    ((sortedSections I).map (fun s => s.id)).Nodup := by
  have hperm : ((sortedSections I).map (fun s => s.id)).Perm
      (I.sections.map (fun s => s.id)) :=
    (List.perm_insertionSort _ I.sections).map _
  exact hperm.nodup_iff.mpr hI

theorem scheduleSections_schedInv (I : GreedyInput)
    (hI : (I.sections.map (fun s => s.id)).Nodup) :
    SchedInv I (scheduleSections I GreedyState.initial) := by
  unfold scheduleSections schedulePhase1 schedulePhase2 schedulePhase3
  apply phase3_fold_schedInv I hI _ _ (sortedSections_mem I)
  apply phase2_fold_schedInv I hI _ _ (sortedSections_mem I)
  apply phase1_fold_schedInv I hI _ _ (sortedSections_mem I)
    (sortedSections_nodup I hI) (by intro sec _ kv hkv; exact absurd hkv (by simp [GreedyState.initial]))
  exact ⟨List.nodup_nil, by simp [GreedyState.initial], by simp [GreedyState.initial], by simp [GreedyState.initial]⟩

/-- Invariant maintained by the student-assignment passes. -/
structure AssignInv (I : GreedyInput) (st : GreedyState) : Prop where
  keysNodup : (st.studentAssignments.map Prod.fst).Nodup
  assignedScheduled : ∀ kv ∈ st.studentAssignments, ∀ sid ∈ kv.2,
    (lookupSched st sid).isSome = true
  assignedPreferred : ∀ kv ∈ st.studentAssignments, ∀ sid ∈ kv.2,
    ∃ sec pref, I.findSection sid = some sec ∧ I.findPref kv.1 = some pref ∧
      pref.preferredCourses.contains sec.courseId = true
  coursesDistinct : ∀ kv ∈ st.studentAssignments,
    kv.2.Pairwise (fun s1 s2 => courseOfSid I s1 ≠ courseOfSid I s2)
  periodsDistinct : ∀ kv ∈ st.studentAssignments,
    kv.2.Pairwise (fun s1 s2 => lookupSched st s1 ≠ lookupSched st s2)
  capacityOk : ∀ sid : String,
    ((sectionStudentsOf st sid).length : Int) ≤ capacityOf I sid

theorem appendToEntry_spec (uid sid : String) : ∀ (m : List (String × List String)),
    ((∀ kv ∈ m, kv.1 ≠ uid) ∧ appendToEntry m uid sid = m ++ [(uid, [sid])]) ∨
    (∃ m1 v m2, m = m1 ++ (uid, v) :: m2 ∧ (∀ kv ∈ m1, kv.1 ≠ uid) ∧
      appendToEntry m uid sid = m1 ++ (uid, v ++ [sid]) :: m2) := by
  intro m
  induction m with
  | nil => left; exact ⟨by simp, rfl⟩
  | cons kv m ih =>
    obtain ⟨k, v⟩ := kv
    by_cases h : k = uid
    · right
      subst h
      exact ⟨[], v, m, by simp, by simp, by rw [appendToEntry, if_pos rfl]; rfl⟩
    · rcases ih with ⟨hf, heq⟩ | ⟨m1, w, m2, hm, hf1, heq⟩
      · left
        refine ⟨?_, ?_⟩
        · intro kv' hkv'
          rcases List.mem_cons.mp hkv' with rfl | h1
          · exact h
          · exact hf kv' h1
        · rw [appendToEntry, if_neg h, heq]
          rfl
      · right
        refine ⟨(k, v) :: m1, w, m2, by rw [hm]; rfl, ?_, ?_⟩
        · intro kv' hkv'
          rcases List.mem_cons.mp hkv' with rfl | h1
          · exact h
          · exact hf1 kv' h1
        · rw [appendToEntry, if_neg h, heq]
          rfl

theorem find?_key_append_cons {m1 : List (String × List String)} {v : List String}
    {m2 : List (String × List String)} {uid : String}
    (h1 : ∀ kv ∈ m1, kv.1 ≠ uid) :
    (m1 ++ (uid, v) :: m2).find? (fun kv => kv.1 = uid) = some (uid, v) := by
  induction m1 with
  | nil => exact List.find?_cons_of_pos _ (by simp)
  | cons kv m1 ih =>
    rw [List.cons_append]
    rw [List.find?_cons_of_neg _ (by simpa using h1 kv (List.mem_cons_self kv m1))]
    exact ih (fun kv' hkv' => h1 kv' (List.mem_cons_of_mem kv hkv'))

theorem getAssigns_decomp {st : GreedyState} {m1 : List (String × List String)}
    {v : List String} {m2 : List (String × List String)} {uid : String}
    (hm : st.studentAssignments = m1 ++ (uid, v) :: m2)
    (h1 : ∀ kv ∈ m1, kv.1 ≠ uid) : getAssigns st uid = v := by
  unfold getAssigns
  rw [hm, find?_key_append_cons h1]
  rfl

theorem getAssigns_fresh {st : GreedyState} {uid : String}
    (h : ∀ kv ∈ st.studentAssignments, kv.1 ≠ uid) : getAssigns st uid = [] := by
  unfold getAssigns
  rw [List.find?_eq_none.mpr (fun kv hkv => by simpa using h kv hkv)]
  rfl

theorem lookupSched_appendAssign (st : GreedyState) (uid sid x : String) :
    lookupSched (appendAssign st uid sid) x = lookupSched st x := rfl

theorem sectionStudentsOf_shape1 (st : GreedyState) (uid sid : String)
    (heq : appendToEntry st.studentAssignments uid sid =
      st.studentAssignments ++ [(uid, [sid])]) (s : String) :
    (sectionStudentsOf (appendAssign st uid sid) s).length =
      (sectionStudentsOf st s).length + (if s = sid then 1 else 0) := by
  unfold sectionStudentsOf appendAssign
  dsimp only
  rw [heq, List.filter_append, List.map_append, List.length_append]
  by_cases h : s = sid <;> simp [h]

theorem sectionStudentsOf_shape2 (st : GreedyState) (uid sid : String)
    (m1 : List (String × List String)) (v : List String)
    (m2 : List (String × List String))
    (hm : st.studentAssignments = m1 ++ (uid, v) :: m2)
    (heq : appendToEntry st.studentAssignments uid sid =
      m1 ++ (uid, v ++ [sid]) :: m2)
    (hnot : sid ∉ v) (s : String) :
    (sectionStudentsOf (appendAssign st uid sid) s).length =
      (sectionStudentsOf st s).length + (if s = sid then 1 else 0) := by
  unfold sectionStudentsOf appendAssign
  dsimp only
  rw [heq, hm, List.filter_append, List.filter_append, List.filter_cons, List.filter_cons,
    List.map_append, List.map_append, List.length_append, List.length_append]
  by_cases h : s = sid
  · subst h
    rw [if_pos (show ((v ++ [s]).contains s) = true by simp),
      if_neg (show ¬(v.contains s = true) by simpa using hnot)]
    simp only [List.length_cons, List.map_cons, List.length_map, eq_self_iff_true, if_true]
    omega
  · have h1 : ((v ++ [sid]).contains s = true) ↔ (v.contains s = true) := by
      simp [h]
    by_cases hc : v.contains s = true
    · rw [if_pos (h1.mpr hc), if_pos hc]
      simp only [List.length_cons, List.map_cons, List.length_map, if_neg h]
      omega
    · rw [if_neg (fun hx => hc (h1.mp hx)), if_neg hc]
      simp only [if_neg h]
      omega

theorem appendAssign_inv (I : GreedyInput) (st : GreedyState) (uid sid : String)
    (hpos : Score.blt Score.zero (computeStudentSectionScore I st uid sid) = true)
    (hinv : AssignInv I st) : AssignInv I (appendAssign st uid sid) := by
  obtain ⟨pid, sec, pref, hl, hfs, hfp, hcourses, hpref, hperiods, hcap, hnotmem⟩ :=
    studentScore_pos_spec I st uid sid hpos
  have hcapacity : capacityOf I sid = sec.capacity := by
    unfold capacityOf
    rw [hfs]
    rfl
  have hcourse_sid : courseOfSid I sid = some sec.courseId := by
    rw [courseOfSid, hfs]
    rfl
  rcases appendToEntry_spec uid sid st.studentAssignments with
    ⟨hf, heq⟩ | ⟨m1, v, m2, hm, hf1, heq⟩
  · -- the student has no entry yet: a fresh entry is appended
    have hga : getAssigns st uid = [] := getAssigns_fresh hf
    have hsa : (appendAssign st uid sid).studentAssignments =
        st.studentAssignments ++ [(uid, [sid])] := heq
    refine ⟨?_, ?_, ?_, ?_, ?_, ?_⟩
    · rw [hsa, List.map_append, List.nodup_append]
      refine ⟨hinv.keysNodup, by simp, ?_⟩
      intro k hk1 hk2
      obtain ⟨kv, hkv, hfst⟩ := List.mem_map.mp hk1
      have hk : k = uid := by simpa using hk2
      exact hf kv hkv (by rw [hfst, hk])
    · intro kv hkv sid' hsid'
      rw [hsa] at hkv
      rcases List.mem_append.mp hkv with h1 | h1
      · exact hinv.assignedScheduled kv h1 sid' hsid'
      · have hkv2 : kv = (uid, [sid]) := by simpa using h1
        subst hkv2
        have hs : sid' = sid := by simpa using hsid'
        subst hs
        show (lookupSched st sid').isSome = true
        rw [hl]
        rfl
    · intro kv hkv sid' hsid'
      rw [hsa] at hkv
      rcases List.mem_append.mp hkv with h1 | h1
      · exact hinv.assignedPreferred kv h1 sid' hsid'
      · have hkv2 : kv = (uid, [sid]) := by simpa using h1
        subst hkv2
        have hs : sid' = sid := by simpa using hsid'
        subst hs
        exact ⟨sec, pref, hfs, hfp, hpref⟩
    · intro kv hkv
      rw [hsa] at hkv
      rcases List.mem_append.mp hkv with h1 | h1
      · exact hinv.coursesDistinct kv h1
      · have hkv2 : kv = (uid, [sid]) := by simpa using h1
        subst hkv2
        simp
    · intro kv hkv
      rw [hsa] at hkv
      rcases List.mem_append.mp hkv with h1 | h1
      · exact hinv.periodsDistinct kv h1
      · have hkv2 : kv = (uid, [sid]) := by simpa using h1
        subst hkv2
        simp
    · intro s
      rw [sectionStudentsOf_shape1 st uid sid heq s]
      by_cases h : s = sid
      · subst h
        rw [if_pos rfl, hcapacity]
        push_cast
        omega
      · rw [if_neg h]
        simpa using hinv.capacityOk s
  · -- the student already has an entry (uid, v)
    have hga : getAssigns st uid = v := getAssigns_decomp hm hf1
    have hnotv : sid ∉ v := by
      rw [← hga]
      exact hnotmem
    have hsa : (appendAssign st uid sid).studentAssignments =
        m1 ++ (uid, v ++ [sid]) :: m2 := heq
    have hmemv : (uid, v) ∈ st.studentAssignments := by
      rw [hm]
      exact List.mem_append_right _ (List.mem_cons_self _ _)
    have hmem_of : ∀ kv : String × List String,
        kv ∈ m1 ∨ kv ∈ m2 → kv ∈ st.studentAssignments := by
      intro kv hkv
      rw [hm]
      rcases hkv with h1 | h1
      · exact List.mem_append_left _ h1
      · exact List.mem_append_right _ (List.mem_cons_of_mem _ h1)
    refine ⟨?_, ?_, ?_, ?_, ?_, ?_⟩
    · have hkeys : ((m1 ++ (uid, v ++ [sid]) :: m2).map Prod.fst) =
          (st.studentAssignments.map Prod.fst) := by
        rw [hm]
        simp
      rw [hsa, hkeys]
      exact hinv.keysNodup
    · intro kv hkv sid' hsid'
      rw [hsa] at hkv
      rcases List.mem_append.mp hkv with h1 | h1
      · exact hinv.assignedScheduled kv (hmem_of kv (Or.inl h1)) sid' hsid'
      · rcases List.mem_cons.mp h1 with h2 | h2
        · subst h2
          rcases List.mem_append.mp hsid' with h3 | h3
          · exact hinv.assignedScheduled (uid, v) hmemv sid' h3
          · have hs : sid' = sid := by simpa using h3
            subst hs
            show (lookupSched st sid').isSome = true
            rw [hl]
            rfl
        · exact hinv.assignedScheduled kv (hmem_of kv (Or.inr h2)) sid' hsid'
    · intro kv hkv sid' hsid'
      rw [hsa] at hkv
      rcases List.mem_append.mp hkv with h1 | h1
      · exact hinv.assignedPreferred kv (hmem_of kv (Or.inl h1)) sid' hsid'
      · rcases List.mem_cons.mp h1 with h2 | h2
        · subst h2
          rcases List.mem_append.mp hsid' with h3 | h3
          · exact hinv.assignedPreferred (uid, v) hmemv sid' h3
          · have hs : sid' = sid := by simpa using h3
            subst hs
            exact ⟨sec, pref, hfs, hfp, hpref⟩
        · exact hinv.assignedPreferred kv (hmem_of kv (Or.inr h2)) sid' hsid'
    · intro kv hkv
      rw [hsa] at hkv
      rcases List.mem_append.mp hkv with h1 | h1
      · exact hinv.coursesDistinct kv (hmem_of kv (Or.inl h1))
      · rcases List.mem_cons.mp h1 with h2 | h2
        · subst h2
          show (v ++ [sid]).Pairwise (fun s1 s2 => courseOfSid I s1 ≠ courseOfSid I s2)
          rw [List.pairwise_append]
          refine ⟨hinv.coursesDistinct (uid, v) hmemv, by simp, ?_⟩
          intro a ha b hb
          have hb2 : b = sid := by simpa using hb
          subst hb2
          rw [hcourse_sid]
          exact hcourses a (by rw [hga]; exact ha)
        · exact hinv.coursesDistinct kv (hmem_of kv (Or.inr h2))
    · intro kv hkv
      rw [hsa] at hkv
      rcases List.mem_append.mp hkv with h1 | h1
      · exact hinv.periodsDistinct kv (hmem_of kv (Or.inl h1))
      · rcases List.mem_cons.mp h1 with h2 | h2
        · subst h2
          show (v ++ [sid]).Pairwise
            (fun s1 s2 => lookupSched (appendAssign st uid sid) s1 ≠
              lookupSched (appendAssign st uid sid) s2)
          rw [List.pairwise_append]
          refine ⟨hinv.periodsDistinct (uid, v) hmemv, by simp, ?_⟩
          intro a ha b hb
          have hb2 : b = sid := by simpa using hb
          subst hb2
          show lookupSched st a ≠ lookupSched st b
          rw [hl]
          exact hperiods a (by rw [hga]; exact ha)
        · exact hinv.periodsDistinct kv (hmem_of kv (Or.inr h2))
    · intro s
      rw [sectionStudentsOf_shape2 st uid sid m1 v m2 hm heq hnotv s]
      by_cases h : s = sid
      · subst h
        rw [if_pos rfl, hcapacity]
        push_cast
        omega
      · rw [if_neg h]
        simpa using hinv.capacityOk s

theorem foldl_pick_mem : ∀ (ys : List (String × Score)) (a : String × Score),
    ys.foldl (fun acc y => if Score.blt acc.2 y.2 then y else acc) a ∈ a :: ys := by
  intro ys
  induction ys with
  | nil => intro a; simp
  | cons y ys ih =>
    intro a
    rw [List.foldl_cons]
    by_cases h : Score.blt a.2 y.2 = true
    · rw [if_pos h]
      rcases List.mem_cons.mp (ih y) with h1 | h1
      · rw [h1]
        exact List.mem_cons_of_mem _ (List.mem_cons_self _ _)
      · exact List.mem_cons_of_mem _ (List.mem_cons_of_mem _ h1)
    · rw [if_neg h]
      rcases List.mem_cons.mp (ih a) with h1 | h1
      · rw [h1]
        exact List.mem_cons_self _ _
      · exact List.mem_cons_of_mem _ (List.mem_cons_of_mem _ h1)

theorem pyMaxBySnd_mem (l : List (String × Score)) (x : String × Score)
    (h : pyMaxBySnd l = some x) : x ∈ l := by
  cases l with
  | nil => simp [pyMaxBySnd] at h
  | cons a as =>
    have hx : as.foldl (fun acc y => if Score.blt acc.2 y.2 then y else acc) a = x := by
      simpa [pyMaxBySnd] using h
    rw [← hx]
    exact foldl_pick_mem as a

theorem assignSpecialCourseStep_inv (I : GreedyInput) (st : GreedyState)
    (uid : String) (pref : StudentPreference) (courseId : String)
    (hinv : AssignInv I st) :
    AssignInv I (assignSpecialCourseStep I st uid pref courseId) := by
  unfold assignSpecialCourseStep
  by_cases hc : ¬pref.preferredCourses.contains courseId = true
  · rw [if_pos hc]
    exact hinv
  · rw [if_neg hc]
    cases hmx : pyMaxBySnd ((I.courseToSections courseId).filterMap
        (fun sectionId =>
          if (lookupSched st sectionId).isNone then none
          else
            let score := computeStudentSectionScore I st uid sectionId
            if Score.blt Score.zero score then some (sectionId, score) else none)) with
    | none =>
      simp only [hmx]
      exact hinv
    | some best =>
      simp only [hmx]
      obtain ⟨sectionId, _, hfm⟩ := List.mem_filterMap.mp (pyMaxBySnd_mem _ best hmx)
      by_cases h1 : (lookupSched st sectionId).isNone = true
      · rw [if_pos h1] at hfm
        exact absurd hfm (by simp)
      · rw [if_neg h1] at hfm
        by_cases h2 : Score.blt Score.zero
            (computeStudentSectionScore I st uid sectionId) = true
        · rw [if_pos h2] at hfm
          have hbest : best = (sectionId,
              computeStudentSectionScore I st uid sectionId) := by
            simpa using hfm.symm
          rw [hbest]
          exact appendAssign_inv I st uid sectionId h2 hinv
        · rw [if_neg h2] at hfm
          exact absurd hfm (by simp)

theorem foldl_pres {α σ : Type} (P : σ → Prop) (f : σ → α → σ)
    (hf : ∀ s a, P s → P (f s a)) :
    ∀ (l : List α) (s : σ), P s → P (l.foldl f s) := by
  intro l
  induction l with
  | nil => intro s h; exact h
  | cons a l ih =>
    intro s h
    rw [List.foldl_cons]
    exact ih _ (hf s a h)

theorem assignRegularStudent_inv (I : GreedyInput) (st : GreedyState) (uid : String)
    (hinv : AssignInv I st) : AssignInv I (assignRegularStudent I st uid) := by
  unfold assignRegularStudent
  cases hfp : I.findPref uid with
  | none => exact hinv
  | some pref =>
    apply foldl_pres (AssignInv I) _ ?_ _ _ hinv
    intro st' entry hinv'
    dsimp only
    by_cases hsc : Score.blt Score.zero
        (computeStudentSectionScore I st' uid entry.2.1) = true
    · rw [if_pos hsc]
      exact appendAssign_inv I st' uid entry.2.1 hsc hinv'
    · rw [if_neg hsc]
      exact hinv'

theorem assignSpecialPhase_inv (I : GreedyInput) (st : GreedyState)
    (hinv : AssignInv I st) : AssignInv I (assignSpecialPhase I st) := by
  unfold assignSpecialPhase
  apply foldl_pres (AssignInv I) _ ?_ _ _ hinv
  intro st' student hinv'
  dsimp only
  cases hfp : I.findPref student.id with
  | none => exact hinv'
  | some pref =>
    apply foldl_pres (AssignInv I) _ ?_ _ _ hinv'
    intro st'' c hinv''
    exact assignSpecialCourseStep_inv I st'' student.id pref c hinv''

theorem assignStudents_inv (I : GreedyInput) (st : GreedyState)
    (hinv : AssignInv I st) : AssignInv I (assignStudents I st) := by
  unfold assignStudents
  apply foldl_pres (AssignInv I) _ ?_ _ _ (assignSpecialPhase_inv I st hinv)
  intro st' student hinv'
  exact assignRegularStudent_inv I st' student.id hinv'

theorem scheduleSectionStep_assigns (I : GreedyInput) (st : GreedyState) (sec : Section) :
    (scheduleSectionStep I st sec).studentAssignments = st.studentAssignments := by
  match hbp : bestPeriodFold I st sec with
  | (none, bs) => rw [scheduleSectionStep_none I st sec bs hbp]
  | (some p, bs) =>
    by_cases hc : p ≠ "" ∧ Score.blt Score.zero bs = true
    · rw [scheduleSectionStep_pos I st sec p bs hbp hc]
    · rw [scheduleSectionStep_neg I st sec p bs hbp hc]

theorem scheduleSections_assigns (I : GreedyInput) (st : GreedyState) :
    (scheduleSections I st).studentAssignments = st.studentAssignments := by
  unfold scheduleSections schedulePhase1 schedulePhase2 schedulePhase3
  exact foldl_pres (fun s : GreedyState => s.studentAssignments = st.studentAssignments) _
    (by intro s sec h
        split
        · exact h
        · rw [scheduleSectionStep_assigns]
          exact h)
    (sortedSections I) _
    (foldl_pres (fun s : GreedyState => s.studentAssignments = st.studentAssignments) _
      (by intro s sec h
          split
          · exact h
          · split
            · rw [scheduleSectionStep_assigns]
              exact h
            · exact h)
      (sortedSections I) _
      (foldl_pres (fun s : GreedyState => s.studentAssignments = st.studentAssignments) _
        (by intro s sec h
            split
            · rw [scheduleSectionStep_assigns]
              exact h
            · exact h)
        (sortedSections I) st rfl))

theorem assignSpecialCourseStep_sched (I : GreedyInput) (st : GreedyState)
    (uid : String) (pref : StudentPreference) (c : String) :
    (assignSpecialCourseStep I st uid pref c).scheduledSections = st.scheduledSections := by
  unfold assignSpecialCourseStep
  by_cases hc : ¬pref.preferredCourses.contains c = true
  · rw [if_pos hc]
  · rw [if_neg hc]
    cases hmx : pyMaxBySnd ((I.courseToSections c).filterMap
        (fun sectionId =>
          if (lookupSched st sectionId).isNone then none
          else
            let score := computeStudentSectionScore I st uid sectionId
            if Score.blt Score.zero score then some (sectionId, score) else none)) with
    | none =>
      simp only [hmx]
    | some best =>
      simp only [hmx]
      rfl

theorem assignRegularStudent_sched (I : GreedyInput) (st : GreedyState) (uid : String) :
    (assignRegularStudent I st uid).scheduledSections = st.scheduledSections := by
  unfold assignRegularStudent
  cases I.findPref uid with
  | none => rfl
  | some pref =>
    exact foldl_pres (fun s : GreedyState => s.scheduledSections = st.scheduledSections) _
      (by intro s entry h
          dsimp only
          split
          · exact h
          · exact h)
      _ st rfl

theorem assignSpecialPhase_sched (I : GreedyInput) (st : GreedyState) :
    (assignSpecialPhase I st).scheduledSections = st.scheduledSections := by
  unfold assignSpecialPhase
  exact foldl_pres (fun s : GreedyState => s.scheduledSections = st.scheduledSections) _
    (by intro s student h
        cases I.findPref student.id with
        | none => exact h
        | some pref =>
          exact foldl_pres (fun x : GreedyState => x.scheduledSections = st.scheduledSections) _
            (by intro x c hx
                rw [assignSpecialCourseStep_sched]
                exact hx)
            specialCourses s h)
    (sortedStudents I) st rfl

theorem assignStudents_sched (I : GreedyInput) (st : GreedyState) :
    (assignStudents I st).scheduledSections = st.scheduledSections := by
  unfold assignStudents
  exact foldl_pres (fun s : GreedyState => s.scheduledSections = st.scheduledSections) _
    (by intro s student h
        rw [assignRegularStudent_sched]
        exact h)
    (sortedStudents I) _ (assignSpecialPhase_sched I st)

theorem schedInv_of_eq {I : GreedyInput} {st1 st2 : GreedyState}
    (h : st2.scheduledSections = st1.scheduledSections) (hinv : SchedInv I st1) :
    SchedInv I st2 := by
  refine ⟨?_, ?_, ?_, ?_⟩
  · rw [h]
    exact hinv.keysNodup
  · rw [h]
    exact hinv.keysExist
  · rw [h]
    exact hinv.noConflict
  · rw [h]
    exact hinv.available

theorem assignInv_start (I : GreedyInput)
    (hcap : ∀ sec ∈ I.sections, 0 ≤ sec.capacity) (st : GreedyState)
    (h : st.studentAssignments = []) : AssignInv I st := by
  have hempty : ∀ sid, sectionStudentsOf st sid = [] := by
    intro sid
    unfold sectionStudentsOf
    rw [h]
    rfl
  refine ⟨?_, ?_, ?_, ?_, ?_, ?_⟩
  · rw [h]
    simp
  · intro kv hkv
    rw [h] at hkv
    exact absurd hkv (by simp)
  · intro kv hkv
    rw [h] at hkv
    exact absurd hkv (by simp)
  · intro kv hkv
    rw [h] at hkv
    exact absurd hkv (by simp)
  · intro kv hkv
    rw [h] at hkv
    exact absurd hkv (by simp)
  · intro sid
    rw [hempty sid]
    show (0 : Int) ≤ capacityOf I sid
    unfold capacityOf
    cases hfs : I.findSection sid with
    | none => simp
    | some sec => simpa using hcap sec (List.mem_of_find?_eq_some hfs)

theorem greedyRunState_schedInv (I : GreedyInput)
    (hI : (I.sections.map (fun s => s.id)).Nodup) :
    SchedInv I (greedyRunState I) :=
  schedInv_of_eq (assignStudents_sched I _) (scheduleSections_schedInv I hI)

theorem greedyRunState_assignInv (I : GreedyInput)
    (hcap : ∀ sec ∈ I.sections, 0 ≤ sec.capacity) :
    AssignInv I (greedyRunState I) :=
  assignStudents_inv I _ (assignInv_start I hcap _
    (by rw [scheduleSections_assigns]; rfl))

/-- Period recorded in a schedule for a section id. -/
def Schedule.sectionPeriod (sch : Schedule) (sid : String) : Option String :=
  match sch.sections.find? (fun kv => kv.1 = sid) with
  | some kv => kv.2.periodId
  | none => none

/-- Course recorded in a schedule for a section id. -/
def Schedule.sectionCourse (sch : Schedule) (sid : String) : Option String :=
  match sch.sections.find? (fun kv => kv.1 = sid) with
  | some kv => some kv.2.courseId
  | none => none

theorem buildResultSections_find? (I : GreedyInput) (st : GreedyState) (sid : String) :
    (buildResultSections I st).find? (fun kv => kv.1 = sid) =
      (I.sections.find? (fun s => s.id = sid)).map (fun sec =>
        (sec.id,
          { id := sec.id, courseId := sec.courseId, teacherId := sec.teacherId,
            periodId := lookupSched st sec.id, capacity := sec.capacity,
            room := sec.room })) := by
  unfold buildResultSections
  rw [List.find?_map]
  rfl

theorem greedySchedule_sectionPeriod (I : GreedyInput) {sid : String} {sec : Section}
    (h : I.findSection sid = some sec) :
    (greedySchedule I).sectionPeriod sid = lookupSched (greedyRunState I) sid := by
  unfold Schedule.sectionPeriod greedySchedule
  dsimp only
  rw [buildResultSections_find?]
  unfold GreedyInput.findSection at h
  rw [h]
  have hid : sec.id = sid := by simpa using List.find?_some h
  dsimp only [Option.map]
  rw [hid]

theorem greedySchedule_sectionCourse (I : GreedyInput) {sid : String} {sec : Section}
    (h : I.findSection sid = some sec) :
    (greedySchedule I).sectionCourse sid = some sec.courseId := by
  unfold Schedule.sectionCourse greedySchedule
  dsimp only
  rw [buildResultSections_find?]
  unfold GreedyInput.findSection at h
  rw [h]
  rfl

theorem countP_le_one_of_pairwise {l : List String} {sid : String}
    {R : String → String → Prop} (hR : ¬R sid sid) (h : l.Pairwise R) :
    l.countP (fun s => s = sid) ≤ 1 := by
  induction l with
  | nil => simp
  | cons a l ih =>
    rw [List.countP_cons]
    have hp := List.pairwise_cons.mp h
    by_cases ha : a = sid
    · subst ha
      have h0 : l.countP (fun s => s = a) = 0 := by
        rw [List.countP_eq_zero]
        intro b hb hba
        have hba' : b = a := by simpa using hba
        subst hba'
        exact hR (hp.1 b hb)
      simp [h0]
    · have : ¬((fun s => decide (s = sid)) a = true) := by simpa using ha
      rw [if_neg this, Nat.add_zero]
      exact ih hp.2

theorem flatten_filter_le (sid : String) : ∀ m : List (String × List String),
    (∀ kv ∈ m, kv.2.countP (fun s => s = sid) ≤ 1) →
    ((m.map (fun kv => kv.2.map (fun s => Assignment.mk kv.1 s))).flatten.filter
      (fun a => a.sectionId = sid)).length ≤
      (m.filter (fun kv => kv.2.contains sid)).length := by
  intro m
  induction m with
  | nil => intro _; simp
  | cons kv m ih =>
    intro h
    rw [List.map_cons, List.flatten_cons, List.filter_append, List.length_append,
      List.filter_cons]
    have hhead : ((kv.2.map (fun s => Assignment.mk kv.1 s)).filter
        (fun a => a.sectionId = sid)).length = kv.2.countP (fun s => s = sid) := by
      rw [← List.countP_eq_length_filter, List.countP_map]
      rfl
    have htail := ih (fun kv' hkv' => h kv' (List.mem_cons_of_mem kv hkv'))
    by_cases hc : kv.2.contains sid = true
    · rw [if_pos hc, List.length_cons]
      have hone : kv.2.countP (fun s => s = sid) ≤ 1 :=
        h kv (List.mem_cons_self kv m)
      omega
    · have hzero : kv.2.countP (fun s => s = sid) = 0 := by
        rw [List.countP_eq_zero]
        intro b hb hbeq
        have hb2 : b = sid := by simpa using hbeq
        subst hb2
        exact hc (by simpa using hb)
      rw [if_neg hc]
      omega

/-- C4: every `Schedule` returned by `GreedyOptimizer.optimize` satisfies
the hard constraints: no teacher has two sections in one period; no
section's period is in its teacher's unavailable set; no student has two
sections sharing a period, nor two sections of one course; students are
assigned only to preferred courses; every assignment's section has a
period; and enrollment never exceeds capacity.  The hypotheses record
the entity-model invariants of the inputs (dict keys — the ids — are
unique, teacher ids are well-formed non-empty strings, capacities are
non-negative). -/
theorem c4_greedy_hard_constraints (I : GreedyInput)
    (hsecN : (I.sections.map (fun s => s.id)).Nodup)
    (hteaN : (I.teachers.map (fun t => t.id)).Nodup)
    (hteaNE : ∀ t ∈ I.teachers, t.id ≠ "")
    (hcap : ∀ sec ∈ I.sections, 0 ≤ sec.capacity)
    (sch : Schedule) (hret : greedyOptimize I = Except.ok sch) :
    (∀ t ∈ I.teachers, sch.sections.Pairwise (fun a b =>
      a.2.teacherId = some t.id → b.2.teacherId = some t.id →
      ∀ p, a.2.periodId = some p → b.2.periodId ≠ some p)) ∧
    (∀ kv ∈ sch.sections, ∀ t ∈ I.teachers, kv.2.teacherId = some t.id →
      ∀ p, kv.2.periodId = some p → t.unavailablePeriods.contains p = false) ∧
    sch.assignments.Pairwise (fun a1 a2 => a1.studentId = a2.studentId →
      sch.sectionPeriod a1.sectionId ≠ sch.sectionPeriod a2.sectionId) ∧
    sch.assignments.Pairwise (fun a1 a2 => a1.studentId = a2.studentId →
      sch.sectionCourse a1.sectionId ≠ sch.sectionCourse a2.sectionId) ∧
    (∀ a ∈ sch.assignments, ∃ pref c, I.findPref a.studentId = some pref ∧
      sch.sectionCourse a.sectionId = some c ∧
      pref.preferredCourses.contains c = true) ∧
    (∀ a ∈ sch.assignments, (sch.sectionPeriod a.sectionId).isSome = true) ∧
    (∀ kv ∈ sch.sections, sch.getEnrollmentCount kv.1 ≤ kv.2.capacity) := by
  have hsch : sch = greedySchedule I := by
    unfold greedyOptimize at hret
    split at hret
    · exact absurd hret (by simp)
    · split at hret
      · exact absurd hret (by simp)
      · simpa using hret.symm
  subst hsch
  have hSI := greedyRunState_schedInv I hsecN
  have hAI := greedyRunState_assignInv I hcap
  have hsym : Symmetric (fun kv1 kv2 : String × String =>
      ∀ tid, sidTeacher I kv1.1 = some tid → sidTeacher I kv2.1 = some tid →
        (I.findTeacher tid).isSome = true → kv1.2 ≠ kv2.2) := by
    intro a b hab tid hb2 ha2 hs
    exact Ne.symm (hab tid ha2 hb2 hs)
  have hsidT : ∀ sec ∈ I.sections, ∀ t ∈ I.teachers, sec.teacherId = some t.id →
      sidTeacher I sec.id = some t.id := by
    intro sec hsecm t ht hteq
    unfold sidTeacher
    rw [findSection_of_nodup hsecN hsecm]
    show sectionTeacherId sec = some t.id
    unfold sectionTeacherId
    rw [hteq]
    show (if t.id = "" then none else some t.id) = some t.id
    rw [if_neg (hteaNE t ht)]
  refine ⟨?_, ?_, ?_, ?_, ?_, ?_, ?_⟩
  · -- (1) teacher non-overlap
    intro t ht
    show (buildResultSections I (greedyRunState I)).Pairwise _
    unfold buildResultSections
    rw [List.pairwise_map]
    have hids : I.sections.Pairwise (fun s1 s2 => s1.id ≠ s2.id) := by
      have h := hsecN
      rw [List.Nodup, List.pairwise_map] at h
      exact h
    refine hids.imp_of_mem ?_
    intro sec1 sec2 h1m h2m hne ht1 ht2 p hp1 hp2
    obtain ⟨kv1, hkv1m, hkv1a, hkv1b⟩ := lookupSched_mem
      (show lookupSched (greedyRunState I) sec1.id = some p from hp1)
    obtain ⟨kv2, hkv2m, hkv2a, hkv2b⟩ := lookupSched_mem
      (show lookupSched (greedyRunState I) sec2.id = some p from hp2)
    have hkvne : kv1 ≠ kv2 := by
      intro hcontra
      exact hne (by rw [← hkv1a, ← hkv2a, hcontra])
    have hrel := hSI.noConflict.forall hsym hkv1m hkv2m hkvne
    have hst1 : sidTeacher I kv1.1 = some t.id := by
      rw [hkv1a]
      exact hsidT sec1 h1m t ht ht1
    have hst2 : sidTeacher I kv2.1 = some t.id := by
      rw [hkv2a]
      exact hsidT sec2 h2m t ht ht2
    have hfts : (I.findTeacher t.id).isSome = true := by
      rw [findTeacher_of_nodup hteaN ht]
      rfl
    exact hrel t.id hst1 hst2 hfts (by rw [hkv1b, hkv2b])
  · -- (2) teacher availability
    intro kv hkv t ht hteq p hper
    obtain ⟨sec, hsecm, hfe⟩ := List.mem_map.mp
      (show kv ∈ I.sections.map _ from hkv)
    subst hfe
    obtain ⟨kv', hkv'm, hkv'a, hkv'b⟩ := lookupSched_mem
      (show lookupSched (greedyRunState I) sec.id = some p from hper)
    have hst : sidTeacher I kv'.1 = some t.id := by
      rw [hkv'a]
      exact hsidT sec hsecm t ht hteq
    have h := hSI.available kv' hkv'm t.id t hst (findTeacher_of_nodup hteaN ht)
    rw [hkv'b] at h
    exact h
  · -- (3) student period non-overlap
    show (buildAssignments (greedyRunState I)).Pairwise _
    unfold buildAssignments
    rw [List.pairwise_flatten]
    constructor
    · intro sub hsub
      obtain ⟨kv, hkvm, hfe⟩ := List.mem_map.mp hsub
      subst hfe
      rw [List.pairwise_map]
      refine (hAI.periodsDistinct kv hkvm).imp_of_mem ?_
      intro s1 s2 h1m h2m hne12 _hstu
      obtain ⟨sec1, pref1, hfs1, _, _⟩ := hAI.assignedPreferred kv hkvm s1 h1m
      obtain ⟨sec2, pref2, hfs2, _, _⟩ := hAI.assignedPreferred kv hkvm s2 h2m
      show (greedySchedule I).sectionPeriod s1 ≠ (greedySchedule I).sectionPeriod s2
      rw [greedySchedule_sectionPeriod I hfs1, greedySchedule_sectionPeriod I hfs2]
      exact hne12
    · rw [List.pairwise_map]
      have hkeys : (greedyRunState I).studentAssignments.Pairwise
          (fun kv1 kv2 => kv1.1 ≠ kv2.1) := by
        have h := hAI.keysNodup
        rw [List.Nodup, List.pairwise_map] at h
        exact h
      refine hkeys.imp ?_
      intro kv1 kv2 hne a ha b hb
      obtain ⟨s1, _, hfe1⟩ := List.mem_map.mp ha
      obtain ⟨s2, _, hfe2⟩ := List.mem_map.mp hb
      subst hfe1
      subst hfe2
      intro hstu
      exact absurd hstu hne
  · -- (4a) one section per course and student
    show (buildAssignments (greedyRunState I)).Pairwise _
    unfold buildAssignments
    rw [List.pairwise_flatten]
    constructor
    · intro sub hsub
      obtain ⟨kv, hkvm, hfe⟩ := List.mem_map.mp hsub
      subst hfe
      rw [List.pairwise_map]
      refine (hAI.coursesDistinct kv hkvm).imp_of_mem ?_
      intro s1 s2 h1m h2m hne12 _hstu
      obtain ⟨sec1, pref1, hfs1, _, _⟩ := hAI.assignedPreferred kv hkvm s1 h1m
      obtain ⟨sec2, pref2, hfs2, _, _⟩ := hAI.assignedPreferred kv hkvm s2 h2m
      show (greedySchedule I).sectionCourse s1 ≠ (greedySchedule I).sectionCourse s2
      rw [greedySchedule_sectionCourse I hfs1, greedySchedule_sectionCourse I hfs2]
      have hc1 : courseOfSid I s1 = some sec1.courseId := by
        rw [courseOfSid, hfs1]
        rfl
      have hc2 : courseOfSid I s2 = some sec2.courseId := by
        rw [courseOfSid, hfs2]
        rfl
      rw [hc1, hc2] at hne12
      exact hne12
    · rw [List.pairwise_map]
      have hkeys : (greedyRunState I).studentAssignments.Pairwise
          (fun kv1 kv2 => kv1.1 ≠ kv2.1) := by
        have h := hAI.keysNodup
        rw [List.Nodup, List.pairwise_map] at h
        exact h
      refine hkeys.imp ?_
      intro kv1 kv2 hne a ha b hb
      obtain ⟨s1, _, hfe1⟩ := List.mem_map.mp ha
      obtain ⟨s2, _, hfe2⟩ := List.mem_map.mp hb
      subst hfe1
      subst hfe2
      intro hstu
      exact absurd hstu hne
  · -- (4b) only preferred courses
    intro a ha
    obtain ⟨sub, hsubm, hasub⟩ := List.mem_flatten.mp
      (show a ∈ ((greedyRunState I).studentAssignments.map _).flatten from ha)
    obtain ⟨kv, hkvm, hfe⟩ := List.mem_map.mp hsubm
    subst hfe
    obtain ⟨sid, hsid, hfe2⟩ := List.mem_map.mp hasub
    subst hfe2
    obtain ⟨sec, pref, hfs, hfp, hprefc⟩ := hAI.assignedPreferred kv hkvm sid hsid
    exact ⟨pref, sec.courseId, hfp, greedySchedule_sectionCourse I hfs, hprefc⟩
  · -- (5) every assigned section is scheduled
    intro a ha
    obtain ⟨sub, hsubm, hasub⟩ := List.mem_flatten.mp
      (show a ∈ ((greedyRunState I).studentAssignments.map _).flatten from ha)
    obtain ⟨kv, hkvm, hfe⟩ := List.mem_map.mp hsubm
    subst hfe
    obtain ⟨sid, hsid, hfe2⟩ := List.mem_map.mp hasub
    subst hfe2
    obtain ⟨sec, pref, hfs, _, _⟩ := hAI.assignedPreferred kv hkvm sid hsid
    show ((greedySchedule I).sectionPeriod sid).isSome = true
    rw [greedySchedule_sectionPeriod I hfs]
    exact hAI.assignedScheduled kv hkvm sid hsid
  · -- (6) capacity
    intro kv hkv
    obtain ⟨sec, hsecm, hfe⟩ := List.mem_map.mp
      (show kv ∈ I.sections.map _ from hkv)
    subst hfe
    show Schedule.getEnrollmentCount (greedySchedule I) sec.id ≤ sec.capacity
    unfold Schedule.getEnrollmentCount Schedule.getSectionEnrollments
    rw [List.length_map]
    have h1 : ∀ kv' ∈ (greedyRunState I).studentAssignments,
        kv'.2.countP (fun s => s = sec.id) ≤ 1 := by
      intro kv' hkv'
      exact countP_le_one_of_pairwise (by simp) (hAI.coursesDistinct kv' hkv')
    have h2 : (((greedySchedule I).assignments.filter
        (fun a => a.sectionId = sec.id)).length) ≤
        ((greedyRunState I).studentAssignments.filter
          (fun kv => kv.2.contains sec.id)).length :=
      flatten_filter_le sec.id (greedyRunState I).studentAssignments h1
    have h3 : (((greedyRunState I).studentAssignments.filter
        (fun kv => kv.2.contains sec.id)).length) =
        (sectionStudentsOf (greedyRunState I) sec.id).length := by
      unfold sectionStudentsOf
      rw [List.length_map]
    have h4 := hAI.capacityOk sec.id
    have h5 : capacityOf I sec.id = sec.capacity := by
      unfold capacityOf
      rw [findSection_of_nodup hsecN hsecm]
      rfl
    rw [h3] at h2
    calc (((greedySchedule I).assignments.filter
        (fun a => a.sectionId = sec.id)).length : Int)
        ≤ ((sectionStudentsOf (greedyRunState I) sec.id).length : Int) := by
          exact_mod_cast h2
      _ ≤ capacityOf I sec.id := h4
      _ = sec.capacity := h5

def c4I : GreedyInput :=
  ⟨[⟨"ST001", "A", "B", "a@s.edu", 9, false⟩],
   [⟨"T001", "F", "L", "t@s.edu", "Math", 5, []⟩],
   [⟨"S001", "MATH101", some "T001", none, 30, none⟩],
   [⟨"P1", "P1", (8, 0), (9, 0), 0⟩],
   [⟨"ST001", ["MATH101"], []⟩]⟩

/-- Witness for C4 at a concrete input: the single produced assignment
points at a scheduled section. -/
theorem c4_greedy_hard_constraints_witness :
    ((greedySchedule c4I).sectionPeriod "S001").isSome = true :=
  (c4_greedy_hard_constraints c4I (by decide) (by decide) (by decide) (by decide)
    (greedySchedule c4I) rfl).2.2.2.2.2.1 ⟨"ST001", "S001"⟩ (by decide)

/-! ## MILP model (`src/algorithms/milp.py`)

`MILPOptimizer.build_model` is embedded as explicit data: the variable
index sets (in Gurobi creation order), the list of named linear
constraints, the objective terms as generated by the `quicksum`s, and
the effects of the warm-start block (the `Start` values it sets and the
outcome of the `chgCoeff` calls it attempts).  Inequalities are
normalised by moving all variables to the left-hand side. -/

/-- Decision variables: `section_period` (`x`), `student_section` (`y`),
`student_section_period` (`z`), `missed_request`, `capacity_violation`. -/
inductive MVar where
  | x (sectionId periodId : String)
  | y (studentId sectionId : String)
  | z (studentId sectionId periodId : String)
  | missReq (studentId courseId : String)
  | capViol (sectionId : String)
deriving DecidableEq, Repr

inductive Cmp where
  | cle
  | ceq
  | cge
deriving DecidableEq, Repr

/-- One named linear constraint `Σ coeff·var  ⟨cmp⟩  rhs`. -/
structure Constr where
  lhs : List (Int × MVar)
  cmp : Cmp
  rhs : Int
  cname : String
deriving DecidableEq, Repr

/-- `self.course_period_restrictions` (an insertion-ordered dict). -/
def coursePeriodRestrictions : List (String × List String) :=
  [("Medical Career", ["R1", "G1"]), ("Heroes Teach", ["R2", "G2"])]

/-- `self.course_period_restrictions.get(course_id)` /
`course_id in self.course_period_restrictions`. -/
def restrictionsFor (courseId : String) : Option (List String) :=
  (coursePeriodRestrictions.find? (fun kv => kv.1 = courseId)).map (fun kv => kv.2)

/-- `get_allowed_periods`. -/
def GreedyInput.getAllowedPeriods (I : GreedyInput) (courseId : String) : List String :=
  (restrictionsFor courseId).getD (I.periods.map (fun p => p.id))

/-- `period_id in self.periods`. -/
def GreedyInput.findPeriod (I : GreedyInput) (pid : String) : Option Period :=
  I.periods.find? (fun p => p.id = pid)

/-- Keys of `section_period` created for the restricted courses: for each
restriction entry, for each section of that course, the allowed period
ids that exist in `self.periods`. -/
def specialSectionPeriodKeys (I : GreedyInput) : List (String × String) :=
  coursePeriodRestrictions.flatMap (fun ca =>
    ((I.sections.filter (fun s => s.courseId = ca.1)).map (fun s => s.id)).flatMap
      (fun sid => (ca.2.filter (fun pid => (I.findPeriod pid).isSome)).map
        (fun pid => (sid, pid))))

/-- Keys of `section_period` created for unrestricted sections: every
period. -/
def regularSectionPeriodKeys (I : GreedyInput) : List (String × String) :=
  (I.sections.filter (fun s => (restrictionsFor s.courseId).isNone)).flatMap
    (fun s => I.periods.map (fun p => (s.id, p.id)))

/-- All keys of `section_period`, in creation order. -/
def sectionPeriodKeys (I : GreedyInput) : List (String × String) :=
  specialSectionPeriodKeys I ++ regularSectionPeriodKeys I

/-- Keys of `student_section`: for each student with a preference
record, the sections whose course is preferred. -/
def studentSectionKeys (I : GreedyInput) : List (String × String) :=
  I.students.flatMap (fun u =>
    match I.findPref u.id with
    | some pref => (I.sections.filter
        (fun s => pref.preferredCourses.contains s.courseId)).map (fun s => (u.id, s.id))
    | none => [])

/-- Keys of `missed_request`: every `(student, preferred course)` pair. -/
def missedRequestKeys (I : GreedyInput) : List (String × String) :=
  I.studentPreferences.flatMap (fun pref =>
    pref.preferredCourses.map (fun c => (pref.studentId, c)))

/-- Keys of `student_section_period`: preferred sections crossed with the
periods for which the section's `x` variable exists. -/
def studentSectionPeriodKeys (I : GreedyInput) : List (String × String × String) :=
  I.students.flatMap (fun u =>
    match I.findPref u.id with
    | some pref =>
        (I.sections.filter (fun s => pref.preferredCourses.contains s.courseId)).flatMap
          (fun s => (I.periods.filter
              (fun p => (sectionPeriodKeys I).contains (s.id, p.id))).map
            (fun p => (u.id, s.id, p.id)))
    | none => [])

/-- The `special_section_..._must_be_assigned` equalities added during
variable creation: each restricted section takes exactly one of its
allowed-and-existing periods. -/
def specialAssignConstrs (I : GreedyInput) : List Constr :=
  coursePeriodRestrictions.flatMap (fun ca =>
    ((I.sections.filter (fun s => s.courseId = ca.1)).map (fun s => s.id)).map
      (fun sid =>
        { lhs := (ca.2.filter (fun pid => (I.findPeriod pid).isSome)).map
            (fun pid => ((1 : Int), MVar.x sid pid)),
          cmp := Cmp.ceq, rhs := 1,
          cname := "special_section_" ++ sid ++ "_must_be_assigned" }))

/-- Constraint group 1: each unrestricted section in at most one period. -/
def regularAssignConstrs (I : GreedyInput) : List Constr :=
  (I.sections.filter (fun s => (restrictionsFor s.courseId).isNone)).map
    (fun s =>
      { lhs := (I.periods.filter
            (fun p => (sectionPeriodKeys I).contains (s.id, p.id))).map
          (fun p => ((1 : Int), MVar.x s.id p.id)),
        cmp := Cmp.cle, rhs := 1,
        cname := "section_" ++ s.id ++ "_assigned_once" })

/-- Constraint group 2: a teacher teaches at most one section per period
(only added when the teacher has sections with a variable for that
period; the code compares `section.teacher_id == teacher_id` directly). -/
def teacherOverlapConstrs (I : GreedyInput) : List Constr :=
  I.periods.flatMap (fun p =>
    I.teachers.filterMap (fun t =>
      let valid := ((I.sections.filter (fun s => s.teacherId = some t.id)).map
          (fun s => s.id)).filter
        (fun sid => (sectionPeriodKeys I).contains (sid, p.id))
      if valid.isEmpty then none
      else some
        { lhs := valid.map (fun sid => ((1 : Int), MVar.x sid p.id)),
          cmp := Cmp.cle, rhs := 1,
          cname := "teacher_" ++ t.id ++ "_period_" ++ p.id ++ "_no_overlap" }))

/-- Constraint group 3: `x = 0` for each section of a teacher in each of
the teacher's unavailable periods. -/
def unavailabilityConstrs (I : GreedyInput) : List Constr :=
  I.teachers.flatMap (fun t =>
    t.unavailablePeriods.flatMap (fun pid =>
      (((I.sections.filter (fun s => s.teacherId = some t.id)).map (fun s => s.id)).filter
          (fun sid => (sectionPeriodKeys I).contains (sid, pid))).map
        (fun sid =>
          { lhs := [((1 : Int), MVar.x sid pid)],
            cmp := Cmp.ceq, rhs := 0,
            cname := "teacher_" ++ t.id ++ "_unavailable_period_" ++ pid })))

/-- Constraint group 4: `y ≤ Σ x` (a student can only take a scheduled
section), normalised to `y − Σ x ≤ 0`. -/
def studentSchedConstrs (I : GreedyInput) : List Constr :=
  I.students.flatMap (fun u =>
    match I.findPref u.id with
    | some pref =>
        (I.sections.filter (fun s => pref.preferredCourses.contains s.courseId ∧
            (studentSectionKeys I).contains (u.id, s.id))).map
          (fun s =>
            { lhs := ((1 : Int), MVar.y u.id s.id) ::
                (I.periods.filter
                    (fun p => (sectionPeriodKeys I).contains (s.id, p.id))).map
                  (fun p => ((-1 : Int), MVar.x s.id p.id)),
              cmp := Cmp.cle, rhs := 0,
              cname := "student_" ++ u.id ++ "_section_" ++ s.id ++ "_scheduled" })
    | none => [])

/-- Constraint group 5: linearisation links (`z ≤ y`, `z ≤ x`,
`z ≥ y + x − 1`, each normalised onto the left-hand side). -/
def linkingConstrs (I : GreedyInput) : List Constr :=
  I.students.flatMap (fun u =>
    match I.findPref u.id with
    | some _ =>
        (I.sections.filter (fun s => (studentSectionKeys I).contains (u.id, s.id))).flatMap
          (fun s =>
            (I.periods.filter (fun p => (sectionPeriodKeys I).contains (s.id, p.id) ∧
                (studentSectionPeriodKeys I).contains (u.id, s.id, p.id))).flatMap
              (fun p =>
                [{ lhs := [((1 : Int), MVar.z u.id s.id p.id),
                     ((-1 : Int), MVar.y u.id s.id)],
                   cmp := Cmp.cle, rhs := 0,
                   cname := "link_xy_" ++ u.id ++ "_" ++ s.id ++ "_" ++ p.id },
                 { lhs := [((1 : Int), MVar.z u.id s.id p.id),
                     ((-1 : Int), MVar.x s.id p.id)],
                   cmp := Cmp.cle, rhs := 0,
                   cname := "link_yz_" ++ u.id ++ "_" ++ s.id ++ "_" ++ p.id },
                 { lhs := [((1 : Int), MVar.z u.id s.id p.id),
                     ((-1 : Int), MVar.y u.id s.id), ((-1 : Int), MVar.x s.id p.id)],
                   cmp := Cmp.cge, rhs := -1,
                   cname := "link_xyz_" ++ u.id ++ "_" ++ s.id ++ "_" ++ p.id }]))
    | none => [])

/-- Constraint group 6: a student sits in at most one section per period
(over the linearised `z` variables; only added when some `z` exists). -/
def studentOverlapConstrs (I : GreedyInput) : List Constr :=
  I.students.flatMap (fun u =>
    match I.findPref u.id with
    | some _ =>
        I.periods.filterMap (fun p =>
          let zs := (I.sections.filter
              (fun s => (studentSectionPeriodKeys I).contains (u.id, s.id, p.id))).map
            (fun s => ((1 : Int), MVar.z u.id s.id p.id))
          if zs.isEmpty then none
          else some
            { lhs := zs, cmp := Cmp.cle, rhs := 1,
              cname := "student_" ++ u.id ++ "_period_" ++ p.id ++ "_no_overlap" })
    | none => [])

/-- `hasattr(student, 'sped_status')`: the attribute names carried by a
`Student` dataclass instance.  `sped_status` is not among them (the
entity declares `has_special_needs`), so the test is `False` for every
student and the second conjunct `student.sped_status` is never evaluated
(Python short-circuit). -/
def studentAttrNames : List String :=
  ["id", "first_name", "last_name", "email", "grade_level", "has_special_needs"]

def hasattrStudent (attr : String) : Bool := studentAttrNames.contains attr

/-- `sped_students` as computed in constraint group 7. -/
def milpSpedStudents (I : GreedyInput) : List String :=
  (I.students.filter (fun _u => hasattrStudent "sped_status")).map (fun u => u.id)

/-- Constraint group 7: at most 12 SPED students per section — only
emitted when `sped_students` is non-empty. -/
def spedConstrs (I : GreedyInput) : List Constr :=
  if (milpSpedStudents I).isEmpty then []
  else
    I.sections.filterMap (fun s =>
      let potential := (milpSpedStudents I).filter (fun uid =>
        match I.findPref uid with
        | some pref => pref.preferredCourses.contains s.courseId ∧
            (studentSectionKeys I).contains (uid, s.id)
        | none => false)
      if potential.isEmpty then none
      else some
        { lhs := potential.map (fun uid => ((1 : Int), MVar.y uid s.id)),
          cmp := Cmp.cle, rhs := 12,
          cname := "section_" ++ s.id ++ "_sped_limit" })

/-- Constraint group 8: soft capacity, `Σ y ≤ capacity + cap_over`
normalised to `Σ y − cap_over ≤ capacity`. -/
def capacityConstrs (I : GreedyInput) : List Constr :=
  I.sections.filterMap (fun s =>
    let potential := (I.studentPreferences.filter (fun pref =>
        pref.preferredCourses.contains s.courseId ∧
        (studentSectionKeys I).contains (pref.studentId, s.id))).map
      (fun pref => pref.studentId)
    if potential.isEmpty then none
    else some
      { lhs := potential.map (fun uid => ((1 : Int), MVar.y uid s.id)) ++
          [((-1 : Int), MVar.capViol s.id)],
        cmp := Cmp.cle, rhs := s.capacity,
        cname := "section_" ++ s.id ++ "_soft_capacity" })

/-- Constraint group 9: course coverage, `Σ y + miss ≥ 1` per requested
course with at least one candidate section. -/
def coverageConstrs (I : GreedyInput) : List Constr :=
  I.studentPreferences.flatMap (fun pref =>
    pref.preferredCourses.filterMap (fun c =>
      let secs := (I.sections.filter (fun s => s.courseId = c ∧
          (studentSectionKeys I).contains (pref.studentId, s.id))).map (fun s => s.id)
      if secs.isEmpty then none
      else some
        { lhs := (secs.map (fun sid => ((1 : Int), MVar.y pref.studentId sid))) ++
            [((1 : Int), MVar.missReq pref.studentId c)],
          cmp := Cmp.cge, rhs := 1,
          cname := "student_" ++ pref.studentId ++ "_course_" ++ c ++ "_requirement" }))

/-- `10 * section_scheduling_obj`, distributed over its `quicksum`. -/
def sectionSchedulingTerms (I : GreedyInput) : List (Int × MVar) :=
  I.sections.flatMap (fun s =>
    (I.periods.filter (fun p => (sectionPeriodKeys I).contains (s.id, p.id))).map
      (fun p => ((10 : Int), MVar.x s.id p.id)))

/-- `student_preference_obj`. -/
def studentPreferenceTerms (I : GreedyInput) : List (Int × MVar) :=
  I.studentPreferences.flatMap (fun pref =>
    (I.sections.filter (fun s => pref.preferredCourses.contains s.courseId ∧
        (studentSectionKeys I).contains (pref.studentId, s.id))).map
      (fun s => ((1 : Int), MVar.y pref.studentId s.id)))

/-- `- missed_request_penalty`, distributed. -/
def missedRequestTerms (I : GreedyInput) : List (Int × MVar) :=
  I.studentPreferences.flatMap (fun pref =>
    pref.preferredCourses.map (fun c => ((-1000 : Int), MVar.missReq pref.studentId c)))

/-- `- capacity_penalty`, distributed. -/
def capacityPenaltyTerms (I : GreedyInput) : List (Int × MVar) :=
  I.sections.map (fun s => ((-1 : Int), MVar.capViol s.id))

/-- The full objective term list set by `model.setObjective`. -/
def objectiveTerms (I : GreedyInput) : List (Int × MVar) :=
  sectionSchedulingTerms I ++ studentPreferenceTerms I ++
    missedRequestTerms I ++ capacityPenaltyTerms I

/-- The warm-start validity test for one warm-started section `sid` at
period `pid`: the restricted-course period check (against restriction
NAMES used as ids) and the teacher-conflict scan over the other
warm-started sections. -/
def validWarmStart (I : GreedyInput) (ws : Schedule) (sid pid : String) : Bool :=
  match I.findSection sid with
  | none => false
  | some msec =>
      (match restrictionsFor msec.courseId with
       | some allowed => allowed.contains pid
       | none => true) &&
      !(ws.sections.any (fun okv =>
          okv.1 ≠ sid ∧ okv.2.isScheduled = true ∧ okv.2.periodId = some pid ∧
          (I.findSection okv.1).isSome = true ∧
          ((I.findSection okv.1).map (fun o => o.teacherId)) = some msec.teacherId))

/-- `model.chgCoeff(model.getObjective(), var, value)`
(milp.py:466, 479): gurobipy's `Model.chgCoeff(constr, var, newvalue)`
requires a `Constr` as its first argument, and `model.getObjective()`
returns a `LinExpr`, so the call raises instead of modifying the model
(and even a mutation of the returned expression would be detached from
the model without a further `setObjective`). -/
def chgCoeffOnObjective : Except PyExn Unit := Except.error PyExn.typeError

/-- The `chgCoeff` calls attempted by the warm-start block, in
execution order, with the coefficient each would set (`11` for a
warm-started `x` variable, `1.2` for a warm-started `y` variable). -/
def warmStartAttemptedChg (I : GreedyInput) (ws : Schedule) : List (MVar × Score) :=
  (ws.sections.filterMap (fun kv =>
    match kv.2.periodId with
    | some pid =>
        if (I.findSection kv.1).isSome ∧ validWarmStart I ws kv.1 pid ∧
            (sectionPeriodKeys I).contains (kv.1, pid)
        then some (MVar.x kv.1 pid, Score.ofInt 11)
        else none
    | none => none)) ++
  ws.assignments.filterMap (fun a =>
    if (studentSectionKeys I).contains (a.studentId, a.sectionId)
    then some (MVar.y a.studentId a.sectionId, Score.frac 6 5)
    else none)

/-- The coefficient changes that actually reach the model: every
attempted call raises and is swallowed by its per-assignment
`except Exception` handler (milp.py:468-469, 480-481), so none do.
(The `.Start` assignment preceding each call has already taken
effect; see `warmStartVals`.) -/
def warmStartChg (I : GreedyInput) (ws : Schedule) : List (MVar × Score) :=
  (warmStartAttemptedChg I ws).filterMap (fun kv =>
    match chgCoeffOnObjective with
    | Except.ok _ => some kv
    | Except.error _ => none)

/-- The `Start` values set by the warm-start block (the `y` starts are
set whenever the variable exists, without a validity test). -/
def warmStartVals (I : GreedyInput) (ws : Schedule) : List (MVar × Score) :=
  (ws.sections.filterMap (fun kv =>
    match kv.2.periodId with
    | some pid =>
        if (I.findSection kv.1).isSome ∧ validWarmStart I ws kv.1 pid ∧
            (sectionPeriodKeys I).contains (kv.1, pid)
        then some (MVar.x kv.1 pid, Score.one)
        else none
    | none => none)) ++
  ws.assignments.filterMap (fun a =>
    if (studentSectionKeys I).contains (a.studentId, a.sectionId)
    then some (MVar.y a.studentId a.sectionId, Score.one)
    else none)

/-- The built Gurobi model as explicit data. -/
structure MILPModel where
  sectionPeriodIdx : List (String × String)
  studentSectionIdx : List (String × String)
  missedRequestIdx : List (String × String)
  capViolIdx : List String
  zIdx : List (String × String × String)
  constraints : List Constr
  objTerms : List (Int × MVar)
  objChg : List (MVar × Score)
  startVals : List (MVar × Score)
deriving Repr

/-- `MILPOptimizer.build_model` (with or without `self.warm_start`). -/
def buildModel (I : GreedyInput) (ws : Option Schedule) : MILPModel :=
  { sectionPeriodIdx := sectionPeriodKeys I,
    studentSectionIdx := studentSectionKeys I,
    missedRequestIdx := missedRequestKeys I,
    capViolIdx := I.sections.map (fun s => s.id),
    zIdx := studentSectionPeriodKeys I,
    constraints := specialAssignConstrs I ++ regularAssignConstrs I ++
      teacherOverlapConstrs I ++ unavailabilityConstrs I ++ studentSchedConstrs I ++
      linkingConstrs I ++ studentOverlapConstrs I ++ spedConstrs I ++
      capacityConstrs I ++ coverageConstrs I,
    objTerms := objectiveTerms I,
    objChg := match ws with | some sch => warmStartChg I sch | none => [],
    startVals := match ws with | some sch => warmStartVals I sch | none => [] }

/-- Final objective coefficient of a variable: the last SUCCESSFUL
coefficient change targeting it if any (a successful `chgCoeff` would
replace the coefficient), otherwise the coefficient summed from the
objective terms.  Since every attempted change fails (see
`warmStartChg`), `objChg` is always empty here and the base coefficient
stands. -/
def MILPModel.objCoeff (m : MILPModel) (v : MVar) : Score :=
  match m.objChg.reverse.find? (fun kv => kv.1 = v) with
  | some kv => kv.2
  | none => Score.ofInt (((m.objTerms.filter (fun t => t.2 = v)).map (fun t => t.1)).sum)

/-- Value of a linear form under an integer valuation. -/
def evalLhs (v : MVar → Int) (lhs : List (Int × MVar)) : Int :=
  (lhs.map (fun t => t.1 * v t.2)).sum

/-- Whether a valuation satisfies one constraint. -/
def Constr.check (v : MVar → Int) (c : Constr) : Bool :=
  match c.cmp with
  | Cmp.cle => evalLhs v c.lhs ≤ c.rhs
  | Cmp.ceq => evalLhs v c.lhs = c.rhs
  | Cmp.cge => c.rhs ≤ evalLhs v c.lhs

/-- Whether a valuation satisfies every constraint of the model. -/
def MILPModel.feasible (m : MILPModel) (v : MVar → Int) : Bool :=
  m.constraints.all (fun c => c.check v)

/-- The variable-type bounds: `x`, `y`, `z`, `missed_request` are
binary and `capacity_violation` is a non-negative integer. -/
def MILPModel.inBounds (m : MILPModel) (v : MVar → Int) : Bool :=
  (m.sectionPeriodIdx.all (fun k => v (MVar.x k.1 k.2) = 0 ∨ v (MVar.x k.1 k.2) = 1)) &&
  (m.studentSectionIdx.all (fun k => v (MVar.y k.1 k.2) = 0 ∨ v (MVar.y k.1 k.2) = 1)) &&
  (m.zIdx.all (fun k =>
    v (MVar.z k.1 k.2.1 k.2.2) = 0 ∨ v (MVar.z k.1 k.2.1 k.2.2) = 1)) &&
  (m.missedRequestIdx.all (fun k =>
    v (MVar.missReq k.1 k.2) = 0 ∨ v (MVar.missReq k.1 k.2) = 1)) &&
  (m.capViolIdx.all (fun sid => 0 ≤ v (MVar.capViol sid)))

/-- Solution extraction of `MILPOptimizer.optimize` for one section: the
first period of `self.periods` whose `x` variable exists and is set
(`var.x > 0.5` on a binary value) becomes the section's period id.
(The surrounding `optimize` never reaches this code as written, because
`Schedule()` raises `TypeError` first; the extraction loop itself is as
at milp.py:549-556.) -/
def extractedPeriod (I : GreedyInput) (v : MVar → Int) (sid : String) : Option String :=
  (I.periods.find? (fun p => (sectionPeriodKeys I).contains (sid, p.id) ∧
      0 < v (MVar.x sid p.id))).map (fun p => p.id)

theorem milpSpedStudents_nil (I : GreedyInput) : milpSpedStudents I = [] := by
  unfold milpSpedStudents
  rw [show (fun _u : Student => hasattrStudent "sped_status") =
      (fun _u : Student => false) from funext (fun _ => by decide)]
  rw [List.filter_false]
  rfl

def c1Students : List Student :=
  (List.range 15).map (fun i => ⟨"ST" ++ toString i, "F", "L", "e", 9, true⟩)

def c1I : GreedyInput :=
  ⟨c1Students, [], [⟨"SEC1", "MATH101", none, none, 30, none⟩],
   [⟨"P1", "P1", (8, 0), (9, 0), 0⟩],
   (List.range 15).map (fun i => ⟨"ST" ++ toString i, ["MATH101"], []⟩)⟩

def c1v : MVar → Int
  | MVar.x _ _ => 1
  | MVar.y _ _ => 1
  | MVar.z _ _ _ => 1
  | MVar.missReq _ _ => 0
  | MVar.capViol _ => 0

/-- C1: the SPED cap is never enforced.  `hasattr(student, 'sped_status')`
is false for every `Student` (the dataclass field is `has_special_needs`),
so `sped_students` is always empty and no `sped_limit` constraint is ever
added to any model; concretely, with 15 special-needs students all
requesting the one course of a single section, the valuation enrolling
all 15 of them at once satisfies the bounds and every constraint of the
built model, violating the claimed cap of 12. -/
theorem c1_sped_cap_never_enforced :
    (∀ I : GreedyInput, milpSpedStudents I = [] ∧ spedConstrs I = []) ∧
    (buildModel c1I none).inBounds c1v = true ∧
    (buildModel c1I none).feasible c1v = true ∧
    ((c1I.students.filter (fun u => u.hasSpecialNeeds)).all
      (fun u => c1v (MVar.y u.id "SEC1") = 1)) = true ∧
    (c1I.students.filter (fun u => u.hasSpecialNeeds)).length = 15 := by
  refine ⟨?_, by decide, by decide, by decide, by decide⟩
  intro I
  have h1 : milpSpedStudents I = [] := milpSpedStudents_nil I
  refine ⟨h1, ?_⟩
  unfold spedConstrs
  rw [h1]
  rfl

def c3I : GreedyInput :=
  ⟨[], [], [⟨"SEC_MED", "Medical Career", none, none, 30, none⟩],
   [⟨"R1", "XX", (8, 0), (9, 0), 0⟩], []⟩

def c3v : MVar → Int
  | MVar.x _ _ => 1
  | _ => 0

/-- C3 (counterexample): the MILP model uses the restriction NAMES
`R1`/`G1` directly as period IDS.  With a single period whose id is `R1`
but whose name is `XX`, a Medical Career section gets its variable and
equality constraint on that period; the all-ones section assignment is
feasible and extraction schedules the section to the period `R1`, whose
name `XX` is not in the allowed name set `{R1, G1}` — refuting both the
name-level invariant and the claimed construction-time name resolution
for the MILP side. -/
theorem c3_counterexample :
    (buildModel c3I none).inBounds c3v = true ∧
    (buildModel c3I none).feasible c3v = true ∧
    extractedPeriod c3I c3v "SEC_MED" = some "R1" ∧
    restrictionsFor "Medical Career" = some ["R1", "G1"] ∧
    ((c3I.periods.find? (fun p => p.id = "R1")).map (fun p => p.name)) = some "XX" ∧
    (["R1", "G1"].contains "XX") = false := by
  exact ⟨by decide, by decide, by decide, by decide, by decide, by decide⟩

def c5I : GreedyInput :=
  ⟨[⟨"ST1", "F", "L", "e", 9, false⟩], [],
   [⟨"SEC1", "MATH101", none, none, 30, none⟩],
   [⟨"P1", "P1", (8, 0), (9, 0), 0⟩],
   [⟨"ST1", ["MATH101"], []⟩]⟩

def c5ws : Schedule :=
  ⟨[("SEC1", ⟨"SEC1", "MATH101", none, some "P1", 30, none⟩)],
   [⟨"ST1", "SEC1"⟩]⟩

theorem filterMap_none {α β : Type} (l : List α) :
    l.filterMap (fun _ => (none : Option β)) = [] := by
  induction l with
  | nil => rfl
  | cons a l ih =>
    rw [List.filterMap_cons]
    exact ih

/-- No attempted warm-start `chgCoeff` survives its failure. -/
theorem warmStartChg_nil (I : GreedyInput) (ws : Schedule) :
    warmStartChg I ws = [] := by
  show (warmStartAttemptedChg I ws).filterMap
    (fun kv => match chgCoeffOnObjective with
      | Except.ok _ => some kv
      | Except.error _ => none) = []
  have h : (fun kv : MVar × Score => match chgCoeffOnObjective with
      | Except.ok _ => some kv
      | Except.error _ => none) = (fun _ => (none : Option (MVar × Score))) := rfl
  rw [h]
  exact filterMap_none _

/-- C5: the MILP objective is exactly
`maximize 10·Σx + 1·Σy − 1000·Σmiss − 1·Σcap_over`, and supplying a
warm start only sets variable `Start` values: it adds no constraints
and no variables, and every objective coefficient is left unchanged.
The block does attempt `chgCoeff(model.getObjective(), var, 11)` and
`chgCoeff(model.getObjective(), var, 1.2)` calls, but each raises (the
first argument is a `LinExpr`, not a `Constr`) and is swallowed by its
per-assignment `except` handler, so no change reaches the model. -/
theorem c5_warm_start_coefficient_neutral :
    (∀ (I : GreedyInput) (ws : Schedule),
      (buildModel I (some ws)).constraints = (buildModel I none).constraints ∧
      (buildModel I (some ws)).sectionPeriodIdx = (buildModel I none).sectionPeriodIdx ∧
      (buildModel I (some ws)).studentSectionIdx = (buildModel I none).studentSectionIdx ∧
      (buildModel I (some ws)).zIdx = (buildModel I none).zIdx ∧
      (buildModel I (some ws)).missedRequestIdx = (buildModel I none).missedRequestIdx ∧
      (buildModel I (some ws)).capViolIdx = (buildModel I none).capViolIdx ∧
      (buildModel I (some ws)).objTerms = (buildModel I none).objTerms) ∧
    (∀ I : GreedyInput,
      (buildModel I none).objTerms =
        sectionSchedulingTerms I ++ studentPreferenceTerms I ++
          missedRequestTerms I ++ capacityPenaltyTerms I ∧
      (∀ t ∈ sectionSchedulingTerms I, t.1 = 10 ∧ ∃ a b, t.2 = MVar.x a b) ∧
      (∀ t ∈ studentPreferenceTerms I, t.1 = 1 ∧ ∃ a b, t.2 = MVar.y a b) ∧
      (∀ t ∈ missedRequestTerms I, t.1 = -1000 ∧ ∃ a b, t.2 = MVar.missReq a b) ∧
      (∀ t ∈ capacityPenaltyTerms I, t.1 = -1 ∧ ∃ a, t.2 = MVar.capViol a)) ∧
    chgCoeffOnObjective = Except.error PyExn.typeError ∧
    (∀ (I : GreedyInput) (ws : Schedule), (buildModel I (some ws)).objChg = []) ∧
    (∀ (I : GreedyInput) (ws : Schedule) (v : MVar),
      (buildModel I (some ws)).objCoeff v = (buildModel I none).objCoeff v) ∧
    (∀ (I : GreedyInput) (ws : Schedule), ∀ kv ∈ warmStartAttemptedChg I ws,
      (∃ a b, kv.1 = MVar.x a b ∧ kv.2 = Score.ofInt 11) ∨
      (∃ a b, kv.1 = MVar.y a b ∧ kv.2 = Score.frac 6 5)) ∧
    (∀ (I : GreedyInput) (ws : Schedule),
      ∀ kv ∈ (buildModel I (some ws)).startVals,
      ((∃ a b, kv.1 = MVar.x a b) ∨ (∃ a b, kv.1 = MVar.y a b)) ∧
      kv.2 = Score.one) := by
  refine ⟨fun I ws => ⟨rfl, rfl, rfl, rfl, rfl, rfl, rfl⟩, ?_, rfl, ?_, ?_, ?_, ?_⟩
  · intro I
    refine ⟨rfl, ?_, ?_, ?_, ?_⟩
    · intro t ht
      rcases List.mem_flatMap.mp ht with ⟨s, _, ht2⟩
      rcases List.mem_map.mp ht2 with ⟨p, _, heq⟩
      subst heq
      exact ⟨rfl, s.id, p.id, rfl⟩
    · intro t ht
      rcases List.mem_flatMap.mp ht with ⟨pref, _, ht2⟩
      rcases List.mem_map.mp ht2 with ⟨s, _, heq⟩
      subst heq
      exact ⟨rfl, pref.studentId, s.id, rfl⟩
    · intro t ht
      rcases List.mem_flatMap.mp ht with ⟨pref, _, ht2⟩
      rcases List.mem_map.mp ht2 with ⟨c, _, heq⟩
      subst heq
      exact ⟨rfl, pref.studentId, c, rfl⟩
    · intro t ht
      rcases List.mem_map.mp ht with ⟨s, _, heq⟩
      subst heq
      exact ⟨rfl, s.id, rfl⟩
  · intro I ws
    exact warmStartChg_nil I ws
  · intro I ws v
    have h1 : (buildModel I (some ws)).objChg = [] := warmStartChg_nil I ws
    unfold MILPModel.objCoeff
    rw [h1]
    rfl
  · intro I ws kv hkv
    rcases List.mem_append.mp hkv with h1 | h1
    · left
      rcases List.mem_filterMap.mp h1 with ⟨a, _, heq⟩
      split at heq
      · split at heq
        · obtain rfl := Option.some.inj heq
          exact ⟨a.1, _, rfl, rfl⟩
        · exact absurd heq (by simp)
      · exact absurd heq (by simp)
    · right
      rcases List.mem_filterMap.mp h1 with ⟨a, _, heq⟩
      split at heq
      · obtain rfl := Option.some.inj heq
        exact ⟨a.studentId, a.sectionId, rfl, rfl⟩
      · exact absurd heq (by simp)
  · intro I ws kv hkv
    have hkv2 : kv ∈ warmStartVals I ws := hkv
    rcases List.mem_append.mp hkv2 with h1 | h1
    · rcases List.mem_filterMap.mp h1 with ⟨a, _, heq⟩
      split at heq
      · split at heq
        · obtain rfl := Option.some.inj heq
          exact ⟨Or.inl ⟨a.1, _, rfl⟩, rfl⟩
        · exact absurd heq (by simp)
      · exact absurd heq (by simp)
    · rcases List.mem_filterMap.mp h1 with ⟨a, _, heq⟩
      split at heq
      · obtain rfl := Option.some.inj heq
        exact ⟨Or.inr ⟨a.studentId, a.sectionId, rfl⟩, rfl⟩
      · exact absurd heq (by simp)

/-- Witness for C5 at a concrete warm start: the start entry the block
records for the warm-started section is an `x` variable set to `1.0`. -/
theorem c5_warm_start_coefficient_neutral_witness :
    ((∃ a b, (MVar.x "SEC1" "P1", Score.one).1 = MVar.x a b) ∨
     (∃ a b, (MVar.x "SEC1" "P1", Score.one).1 = MVar.y a b)) ∧
    (MVar.x "SEC1" "P1", Score.one).2 = Score.one :=
  c5_warm_start_coefficient_neutral.2.2.2.2.2.2 c5I c5ws
    (MVar.x "SEC1" "P1", Score.one) (by decide)

/-! ## Restricted-period invariant of the greedy scheduler (for C3) -/

theorem dictSet_mem {l : List (String × String)} {k v : String} :
    ∀ kv ∈ dictSet l k v, kv ∈ l ∨ kv = (k, v) := by
  induction l with
  | nil =>
    intro kv hkv
    exact Or.inr (by simpa [dictSet] using hkv)
  | cons x xs ih =>
    intro kv hkv
    rw [show dictSet (x :: xs) k v =
        (if x.1 = k then (k, v) :: xs else x :: dictSet xs k v) from rfl] at hkv
    by_cases hx : x.1 = k
    · rw [if_pos hx] at hkv
      rcases List.mem_cons.mp hkv with h | h
      · exact Or.inr h
      · exact Or.inl (List.mem_cons_of_mem x h)
    · rw [if_neg hx] at hkv
      rcases List.mem_cons.mp hkv with h | h
      · exact Or.inl (h ▸ List.mem_cons_self x xs)
      · rcases ih kv h with h2 | h2
        · exact Or.inl (List.mem_cons_of_mem x h2)
        · exact Or.inr h2

/-- Any entry of the schedule map after one sweep step is an old entry
or the stepped section placed at a positive-score period. -/
theorem scheduleSectionStep_entries (I : GreedyInput) (st : GreedyState) (sec : Section) :
    ∀ kv ∈ (scheduleSectionStep I st sec).scheduledSections,
      kv ∈ st.scheduledSections ∨
      (kv.1 = sec.id ∧
        Score.blt Score.zero (computePeriodScore I st sec kv.2) = true) := by
  match hbp : bestPeriodFold I st sec with
  | (none, bs) =>
    rw [scheduleSectionStep_none I st sec bs hbp]
    exact fun kv hkv => Or.inl hkv
  | (some p, bs) =>
    by_cases hc : p ≠ "" ∧ Score.blt Score.zero bs = true
    · rw [scheduleSectionStep_pos I st sec p bs hbp hc]
      intro kv hkv
      rcases dictSet_mem kv hkv with h | h
      · exact Or.inl h
      · subst h
        refine Or.inr ⟨rfl, ?_⟩
        rw [← bestPeriodFold_some_score I st sec p bs hbp]
        exact hc.2
    · rw [scheduleSectionStep_neg I st sec p bs hbp hc]
      exact fun kv hkv => Or.inl hkv

/-- An entry of the schedule map respects the course-period restriction:
if its section resolves to a restricted course, the recorded period id
is among the resolved allowed period ids. -/
def restrOk (I : GreedyInput) (kv : String × String) : Prop :=
  ∀ sec, I.findSection kv.1 = some sec →
    ∀ allowed, I.specialCoursePeriods sec.courseId = some allowed →
      allowed.contains kv.2 = true

theorem foldl_pres_mem {α σ : Type} (P : σ → Prop) (f : σ → α → σ) :
    ∀ (l : List α) (s : σ), (∀ a ∈ l, ∀ s, P s → P (f s a)) → P s → P (l.foldl f s) := by
  intro l
  induction l with
  | nil => intro s _ h; exact h
  | cons a l ih =>
    intro s hf h
    rw [List.foldl_cons]
    exact ih _ (fun b hb => hf b (List.mem_cons_of_mem a hb))
      (hf a (List.mem_cons_self a l) s h)

theorem scheduleSectionStep_restr (I : GreedyInput)
    (hsecN : (I.sections.map (fun s => s.id)).Nodup)
    {sec : Section} (hmem : sec ∈ I.sections) (st : GreedyState)
    (h : ∀ kv ∈ st.scheduledSections, restrOk I kv) :
    ∀ kv ∈ (scheduleSectionStep I st sec).scheduledSections, restrOk I kv := by
  intro kv hkv
  rcases scheduleSectionStep_entries I st sec kv hkv with hold | ⟨hid, hpos⟩
  · exact h kv hold
  · intro sec' hfind allowed hres
    have hfs : I.findSection kv.1 = some sec := by
      rw [hid]
      exact findSection_of_nodup hsecN hmem
    have hsec' : sec' = sec := by
      rw [hfind] at hfs
      exact Option.some.inj hfs
    rw [hsec'] at hres
    exact periodScore_pos_restriction_ok I st sec kv.2 hpos allowed hres

theorem greedyRunState_restr (I : GreedyInput)
    (hsecN : (I.sections.map (fun s => s.id)).Nodup) :
    ∀ kv ∈ (greedyRunState I).scheduledSections, restrOk I kv := by
  intro kv hkv
  rw [show (greedyRunState I).scheduledSections =
      (scheduleSections I GreedyState.initial).scheduledSections from
    assignStudents_sched I _] at hkv
  revert kv hkv
  unfold scheduleSections schedulePhase1 schedulePhase2 schedulePhase3
  apply foldl_pres_mem
    (fun st : GreedyState => ∀ kv ∈ st.scheduledSections, restrOk I kv) _
    (sortedSections I) _ ?_ ?_
  · intro sec hsec st h
    split
    · exact h
    · exact scheduleSectionStep_restr I hsecN (sortedSections_mem I sec hsec) st h
  · apply foldl_pres_mem
      (fun st : GreedyState => ∀ kv ∈ st.scheduledSections, restrOk I kv) _
      (sortedSections I) _ ?_ ?_
    · intro sec hsec st h
      split
      · exact h
      · split
        · exact scheduleSectionStep_restr I hsecN (sortedSections_mem I sec hsec) st h
        · exact h
    · apply foldl_pres_mem
        (fun st : GreedyState => ∀ kv ∈ st.scheduledSections, restrOk I kv) _
        (sortedSections I) _ ?_ ?_
      · intro sec hsec st h
        split
        · exact scheduleSectionStep_restr I hsecN (sortedSections_mem I sec hsec) st h
        · exact h
      · intro kv hkv
        exact absurd hkv (by simp [GreedyState.initial])

/-- C3 (amended): every `Schedule` returned by the GREEDY optimizer
places each section of a restricted course only in a period of
`special_course_periods[course]`, a list the greedy resolves from
restriction names to period ids at construction — so the scheduled
period's NAME is in the course's allowed name set.  (The MILP model
instead uses the restriction names directly as period ids at variable
creation, and its name-level invariant fails; see the counterexample.) -/
theorem c3_amended_restricted_periods (I : GreedyInput)
    (hsecN : (I.sections.map (fun s => s.id)).Nodup)
    (sch : Schedule) (hret : greedyOptimize I = Except.ok sch)
    (sid pid c : String) (allowed : List String)
    (hp : sch.sectionPeriod sid = some pid)
    (hc : sch.sectionCourse sid = some c)
    (hres : I.specialCoursePeriods c = some allowed) :
    pid ∈ allowed ∧
    ∃ per ∈ I.periods, per.id = pid ∧
      (c = "Medical Career" → (per.name = "R1" ∨ per.name = "G1")) ∧
      (c = "Heroes Teach" → (per.name = "R2" ∨ per.name = "G2")) := by
  have hsch : sch = greedySchedule I := by
    unfold greedyOptimize at hret
    split at hret
    · exact absurd hret (by simp)
    · split at hret
      · exact absurd hret (by simp)
      · simpa using hret.symm
  subst hsch
  cases hfs : I.findSection sid with
  | none =>
    exfalso
    unfold Schedule.sectionPeriod at hp
    rw [show (greedySchedule I).sections =
        buildResultSections I (greedyRunState I) from rfl,
      buildResultSections_find?] at hp
    unfold GreedyInput.findSection at hfs
    rw [hfs] at hp
    simp at hp
  | some sec =>
    rw [greedySchedule_sectionPeriod I hfs] at hp
    rw [greedySchedule_sectionCourse I hfs] at hc
    have hcourse : c = sec.courseId := (Option.some.inj hc).symm
    obtain ⟨kv, hkvm, hkid, hkp⟩ := lookupSched_mem hp
    have hro : restrOk I kv := greedyRunState_restr I hsecN kv hkvm
    have hfind : I.findSection kv.1 = some sec := by rw [hkid]; exact hfs
    have hres' : I.specialCoursePeriods sec.courseId = some allowed := by
      rw [← hcourse]
      exact hres
    have hcontains : allowed.contains kv.2 = true := hro sec hfind allowed hres'
    have hpid : pid ∈ allowed := by
      rw [← hkp]
      simpa using hcontains
    refine ⟨hpid, ?_⟩
    by_cases hmed : c = "Medical Career"
    · have hall : allowed = I.medicalCareerPeriods := by
        unfold GreedyInput.specialCoursePeriods at hres
        rw [if_pos hmed] at hres
        exact (Option.some.inj hres).symm
      rw [hall] at hpid
      unfold GreedyInput.medicalCareerPeriods at hpid
      rcases List.mem_map.mp hpid with ⟨per, hperf, hpere⟩
      rcases List.mem_filter.mp hperf with ⟨hperm, hname⟩
      refine ⟨per, hperm, hpere, fun _ => by simpa using hname, fun hher => ?_⟩
      rw [hmed] at hher
      exact absurd hher (by decide)
    · by_cases hher : c = "Heroes Teach"
      · have hall : allowed = I.heroesTeachPeriods := by
          unfold GreedyInput.specialCoursePeriods at hres
          rw [if_neg hmed, if_pos hher] at hres
          exact (Option.some.inj hres).symm
        rw [hall] at hpid
        unfold GreedyInput.heroesTeachPeriods at hpid
        rcases List.mem_map.mp hpid with ⟨per, hperf, hpere⟩
        rcases List.mem_filter.mp hperf with ⟨hperm, hname⟩
        refine ⟨per, hperm, hpere, fun hmed2 => ?_, fun _ => by simpa using hname⟩
        rw [hher] at hmed2
        exact absurd hmed2 (by decide)
      · exfalso
        unfold GreedyInput.specialCoursePeriods at hres
        rw [if_neg hmed, if_neg hher] at hres
        exact absurd hres (by simp)

def c3I2 : GreedyInput :=
  ⟨[⟨"ST9", "F", "L", "e", 9, false⟩], [],
   [⟨"SM1", "Medical Career", none, none, 30, none⟩],
   [⟨"P9", "R1", (8, 0), (9, 0), 0⟩],
   [⟨"ST9", ["Medical Career"], []⟩]⟩

/-- Witness for the amended C3 at a concrete input: the period id `P9`
named `R1` is the resolved allowed period of the scheduled Medical
Career section. -/
theorem c3_amended_restricted_periods_witness :
    "P9" ∈ ["P9"] ∧
    ∃ per ∈ c3I2.periods, per.id = "P9" ∧
      ("Medical Career" = "Medical Career" → (per.name = "R1" ∨ per.name = "G1")) ∧
      ("Medical Career" = "Heroes Teach" → (per.name = "R2" ∨ per.name = "G2")) :=
  c3_amended_restricted_periods c3I2 (by decide) (greedySchedule c3I2) rfl
    "SM1" "P9" "Medical Career" ["P9"] (by decide) (by decide) (by decide)

/-! ## Oracle failure handling (`OptimizationPipeline`, `src/pipeline.py`)

`_call_claude_api(self, prompt)` falls back to local adjustment logic
when the HTTP call to the Claude API raises or returns a non-200 status.
The fallback's first statement reads the bare name
`underutilized_sections` (and later `current_input_dir`), names that are
locals of `run` only; CPython compiles them as global loads here.  Name
resolution is embedded through the compiled local-name set of
`_call_claude_api` and the module-global names of `pipeline.py`. -/

/-- Assignment targets (and the parameter) in the body of
`_call_claude_api` — the names CPython treats as locals of the
function. -/
def callClaudeApiLocals : List String :=
  ["self", "prompt", "headers", "payload", "response", "response_data",
   "claude_response", "e", "underutilized_section_ids", "actions",
   "sections_df", "teachers_df", "teacher_section_counts", "teacher_courses",
   "_", "row", "teacher_id", "course_id", "mergeable_sections",
   "course_sections", "course_low_util", "section_id", "section_row",
   "section_data", "utilization", "enrollment", "capacity", "department",
   "potential_teachers", "tid", "courses", "merge_candidates", "merge_with",
   "course_section_ids", "other_sections_highly_utilized", "other_id",
   "other_util", "simulated_response"]

/-- Module-level names of `pipeline.py` (imports, constants, classes). -/
def pipelineGlobals : List String :=
  ["os", "sys", "time", "json", "argparse", "logging", "pd", "requests", "gp",
   "Path", "Dict", "List", "Any", "Tuple", "Optional", "ScheduleOptimizer",
   "GreedyOptimizer", "MILPOptimizer", "Schedule", "Section", "DataConverter",
   "logger", "CLAUDE_API_KEY", "CLAUDE_API_URL", "OptimizationPipeline", "main"]

/-- Resolution of a name read inside `_call_claude_api`: locals first,
then module globals; a miss raises `NameError` (no relevant builtin
exists for the names at issue). -/
def callClaudeApiLookup (n : String) : Except PyExn Unit :=
  if callClaudeApiLocals.contains n then Except.ok ()
  else if pipelineGlobals.contains n then Except.ok ()
  else Except.error PyExn.nameError

/-- `_call_claude_api`: a successful API call returns the response text;
on failure the fallback block runs, whose first statement
`underutilized_sections["Section ID"].tolist()` (pipeline.py:669, not
inside any `try` of this function) resolves the free name
`underutilized_sections`.  The `.ok` continuation models the block's
empty-list early return and is unreachable, since the lookup fails. -/
def callClaudeApi (apiResult : Option String) : Except PyExn String :=
  match apiResult with
  | some text => Except.ok text
  | none =>
      match callClaudeApiLookup "underutilized_sections" with
      | Except.error ex => Except.error ex
      | Except.ok _ => Except.ok "[]"

/-- The `except` handler of `run` (pipeline.py:336-346): on the first
iteration any exception is re-raised as
`RuntimeError("Failed on first iteration: ...")`; on later iterations
the previous iteration's result is used. -/
def runIterationRecovery (iteration : Nat) (lastSuccess : Option Schedule)
    (_ex : PyExn) : Except PyExn (Option Schedule) :=
  if iteration = 0 then Except.error PyExn.runtimeError
  else Except.ok lastSuccess

/-- Iteration 0 of `run` from the point where `_run_claude_agent`
invokes the oracle and the API call has failed: the exception escapes
into `run`'s handler. -/
def runOracleFailureIterZero : Except PyExn (Option Schedule) :=
  match callClaudeApi none with
  | Except.error ex => runIterationRecovery 0 none ex
  | Except.ok _ => Except.ok none

/-- C6: an oracle failure does NOT behave as "propose nothing": when the
API call fails, `_call_claude_api`'s fallback reads
`underutilized_sections`, which is neither a local of the function nor a
module global, so `NameError` is raised; `run`'s handler re-raises it as
`RuntimeError` on the first iteration, aborting the run instead of
terminating normally through the no-structural-change guard. -/
theorem c6_oracle_failure_aborts_first_iteration :
    ("underutilized_sections" ∉ callClaudeApiLocals ∧
     "underutilized_sections" ∉ pipelineGlobals ∧
     callClaudeApiLookup "underutilized_sections" =
       Except.error PyExn.nameError) ∧
    callClaudeApi none = Except.error PyExn.nameError ∧
    (∀ text, callClaudeApi (some text) = Except.ok text) ∧
    (∀ ex, runIterationRecovery 0 none ex = Except.error PyExn.runtimeError) ∧
    runOracleFailureIterZero = Except.error PyExn.runtimeError := by
  exact ⟨⟨by decide, by decide, rfl⟩, rfl,
    fun text => rfl, fun ex => rfl, rfl⟩

/-! ## `_split_section` (`OptimizationPipeline`, pipeline.py:1007-1102)

The sections and teachers CSVs are embedded as row lists carrying the
columns this method touches (`Section ID`, `Course ID`,
`Teacher Assigned`, `# of Seats Available`, `Department`; `Teacher ID`
and `Department`).  Python `//` and `%` are floor division and modulus,
i.e. `Int.ediv`/`Int.emod`. -/

structure SectionRow where
  sectionId : String
  courseId : String
  teacherAssigned : String
  seats : Int
  dept : String
deriving DecidableEq, Repr

structure TeacherRow where
  teacherId : String
  dept : String
deriving DecidableEq, Repr

def digitVal (c : Char) : Option Nat :=
  if 48 ≤ c.toNat ∧ c.toNat ≤ 57 then some (c.toNat - 48) else none

/-- `int(base)` on a digit string (`ValueError`, i.e. `none`, otherwise,
matching the `try`/`except ValueError` skip). -/
def digitsToNat (cs : List Char) : Option Nat :=
  if cs.isEmpty then none
  else cs.foldl (fun acc c =>
    match acc, digitVal c with
    | some n, some d => some (n * 10 + d)
    | _, _ => none) (some 0)

/-- `s.startswith("S")` then `int(s[1:].split('_')[0])`, tolerating
suffixes such as `S002_B`. -/
def parseSectionNum (s : String) : Option Nat :=
  match s.data with
  | 'S' :: rest => digitsToNat (rest.takeWhile (fun c => c ≠ '_'))
  | _ => none

def sectionNums (rows : List SectionRow) : List Nat :=
  rows.filterMap (fun r => parseSectionNum r.sectionId)

/-- `max(section_numbers) + 1 if section_numbers else 1`. -/
def nextSectionNum (rows : List SectionRow) : Nat :=
  match (sectionNums rows).max? with
  | some m => m + 1
  | none => 1

/-- `f"S{n:03d}"` without the `S` prefix: decimal digits zero-padded to
width 3. -/
def pad3 (n : Nat) : String :=
  let ds := Nat.toDigits 10 n
  ⟨List.replicate (3 - ds.length) '0' ++ ds⟩

/-- `sections_df.groupby("Teacher Assigned").size().to_dict()` with
`.get(t, 0)`. -/
def teacherCount (rows : List SectionRow) (t : String) : Nat :=
  (rows.filter (fun r => r.teacherAssigned = t)).length

/-- `pandas.unique`: first occurrences in order. -/
def dedupFirstAux : List String → List String → List String
  | [], _ => []
  | x :: xs, seen =>
      if seen.contains x then dedupFirstAux xs seen
      else x :: dedupFirstAux xs (x :: seen)

def dedupFirst (l : List String) : List String := dedupFirstAux l []

/-- `potential_teachers`: same-course teachers other than the current
one with fewer than 6 sections; if none, department teachers under the
same conditions. -/
def splitPotential (rows : List SectionRow) (teacherRows : List TeacherRow)
    (r0 : SectionRow) : List String :=
  let cur := r0.teacherAssigned
  let qualified := dedupFirst
    ((rows.filter (fun r => r.courseId = r0.courseId)).map (fun r => r.teacherAssigned))
  let pot1 := qualified.filter (fun t => t ≠ cur ∧ teacherCount rows t < 6)
  if pot1.isEmpty then
    (dedupFirst ((teacherRows.filter (fun tr => tr.dept = r0.dept)).map
      (fun tr => tr.teacherId))).filter (fun t => t ≠ cur ∧ teacherCount rows t < 6)
  else pot1

/-- The teacher-selection chain: first potential teacher, else the
current teacher when under 6 sections, else refusal. -/
def splitChoice (rows : List SectionRow) (teacherRows : List TeacherRow)
    (r0 : SectionRow) : Option String :=
  let potential := splitPotential rows teacherRows r0
  if potential.isEmpty then
    (if teacherCount rows r0.teacherAssigned < 6
     then some r0.teacherAssigned else none)
  else potential.head?

/-- `_split_section`, returning the resulting sections rows (the method
mutates `sections_df` in place; every refusal path leaves it
unchanged). -/
def splitSection (rows : List SectionRow) (teacherRows : List TeacherRow)
    (sid : String) : List SectionRow :=
  match rows.find? (fun r => r.sectionId = sid) with
  | none => rows
  | some r0 =>
      let c := r0.seats
      if c ≤ 30 then rows
      else
        let cap1 := c / 2 + c % 2
        let cap2 := c / 2
        if cap1 < 15 ∨ cap2 < 15 then rows
        else
          match splitChoice rows teacherRows r0 with
          | none => rows
          | some t =>
              (rows.map (fun r =>
                if r.sectionId = sid then { r with seats := cap1 } else r)) ++
              [{ r0 with
                  sectionId := "S" ++ pad3 (nextSectionNum rows),
                  seats := cap2,
                  teacherAssigned := t }]

theorem mem_ite_list {α : Type} {b : Prop} [Decidable b] {l1 l2 : List α} {x : α}
    (h : x ∈ (if b then l1 else l2)) : x ∈ l1 ∨ x ∈ l2 := by
  by_cases hb : b
  · rw [if_pos hb] at h
    exact Or.inl h
  · rw [if_neg hb] at h
    exact Or.inr h

theorem dedupFirstAux_subset :
    ∀ (l seen : List String), ∀ x ∈ dedupFirstAux l seen, x ∈ l := by
  intro l
  induction l with
  | nil =>
    intro seen x hx
    exact absurd hx (by simp [dedupFirstAux])
  | cons a l ih =>
    intro seen x hx
    rw [show dedupFirstAux (a :: l) seen =
        (if seen.contains a then dedupFirstAux l seen
         else a :: dedupFirstAux l (a :: seen)) from rfl] at hx
    by_cases hc : seen.contains a = true
    · rw [if_pos hc] at hx
      exact List.mem_cons_of_mem a (ih seen x hx)
    · rw [if_neg hc] at hx
      rcases List.mem_cons.mp hx with h | h
      · exact h ▸ List.mem_cons_self a l
      · exact List.mem_cons_of_mem a (ih (a :: seen) x h)

theorem dedupFirst_subset {l : List String} : ∀ x ∈ dedupFirst l, x ∈ l :=
  fun x hx => dedupFirstAux_subset l [] x hx

/-- C9: `_split_section` leaves the catalog unchanged when the section
is missing or its capacity is at most 30 (and, vacuously for capacities
above 30, when a half would fall below 15) or when the teacher chain
finds nobody; an accepted split sets every row of the split section to
capacity `⌈c/2⌉` and appends exactly one new row with capacity `⌊c/2⌋`,
the same course and department, id `S{max+1:03d}` parsed tolerantly from
the existing ids, and the chain-selected teacher: a same-course teacher
other than the current one with fewer than 6 sections, else a
department peer under the same conditions, else the current teacher if
under 6 sections. -/
theorem c9_split_section (rows : List SectionRow) (teacherRows : List TeacherRow)
    (sid : String) :
    (rows.find? (fun r => r.sectionId = sid) = none →
      splitSection rows teacherRows sid = rows) ∧
    (∀ r0, rows.find? (fun r => r.sectionId = sid) = some r0 →
      (r0.seats ≤ 30 → splitSection rows teacherRows sid = rows) ∧
      (30 < r0.seats →
        ¬(r0.seats / 2 + r0.seats % 2 < 15 ∨
            r0.seats / 2 < 15) ∧
        (splitChoice rows teacherRows r0 = none →
          splitSection rows teacherRows sid = rows) ∧
        (∀ t, splitChoice rows teacherRows r0 = some t →
          splitSection rows teacherRows sid =
            (rows.map (fun r =>
              if r.sectionId = sid
              then { r with seats := r0.seats / 2 + r0.seats % 2 }
              else r)) ++
            [{ r0 with
                sectionId := "S" ++ pad3 (nextSectionNum rows),
                seats := r0.seats / 2,
                teacherAssigned := t }]) ∧
        (∀ t, splitChoice rows teacherRows r0 = some t →
          (t = r0.teacherAssigned ∧ teacherCount rows t < 6) ∨
          (t ≠ r0.teacherAssigned ∧ teacherCount rows t < 6 ∧
            ((∃ r ∈ rows, r.courseId = r0.courseId ∧ r.teacherAssigned = t) ∨
             (∃ tr ∈ teacherRows, tr.dept = r0.dept ∧ tr.teacherId = t)))))) := by
  constructor
  · intro h
    simp only [splitSection, h]
  · intro r0 hfind
    constructor
    · intro hle
      simp only [splitSection, hfind]
      rw [if_pos hle]
    · intro hgt
      have h15 : ¬(r0.seats / 2 + r0.seats % 2 < 15 ∨
          r0.seats / 2 < 15) := by omega
      refine ⟨h15, ?_, ?_, ?_⟩
      · intro hch
        simp only [splitSection, hfind]
        rw [if_neg (not_le.mpr hgt), if_neg h15, hch]
      · intro t hch
        simp only [splitSection, hfind]
        rw [if_neg (not_le.mpr hgt), if_neg h15, hch]
      · intro t hch
        unfold splitChoice at hch
        by_cases hpot : (splitPotential rows teacherRows r0).isEmpty = true
        · rw [if_pos hpot] at hch
          by_cases hcnt : teacherCount rows r0.teacherAssigned < 6
          · rw [if_pos hcnt] at hch
            obtain rfl : r0.teacherAssigned = t := Option.some.inj hch
            exact Or.inl ⟨rfl, hcnt⟩
          · rw [if_neg hcnt] at hch
            exact absurd hch (by simp)
        · rw [if_neg hpot] at hch
          have htmem : t ∈ splitPotential rows teacherRows r0 := by
            cases hp : splitPotential rows teacherRows r0 with
            | nil =>
              rw [hp] at hch
              exact absurd hch (by simp)
            | cons a l =>
              rw [hp] at hch
              have ha : a = t := by simpa using hch
              rw [← ha]
              exact List.mem_cons_self a l
          simp only [splitPotential] at htmem
          rcases mem_ite_list htmem with h | h
          · rcases List.mem_filter.mp h with ⟨hdd, hpred⟩
            have hpred' : t ≠ r0.teacherAssigned ∧ teacherCount rows t < 6 := by
              simpa using hpred
            refine Or.inr ⟨hpred'.1, hpred'.2, Or.inr ?_⟩
            obtain ⟨tr, htr, rfl⟩ := List.mem_map.mp (dedupFirst_subset t hdd)
            rcases List.mem_filter.mp htr with ⟨htr2, hdept⟩
            exact ⟨tr, htr2, by simpa using hdept, rfl⟩
          · rcases List.mem_filter.mp h with ⟨hdd, hpred⟩
            have hpred' : t ≠ r0.teacherAssigned ∧ teacherCount rows t < 6 := by
              simpa using hpred
            refine Or.inr ⟨hpred'.1, hpred'.2, Or.inl ?_⟩
            obtain ⟨r, hr, rfl⟩ := List.mem_map.mp (dedupFirst_subset t hdd)
            rcases List.mem_filter.mp hr with ⟨hr2, hcourse⟩
            exact ⟨r, hr2, by simpa using hcourse, rfl⟩

def c9Rows : List SectionRow :=
  [⟨"S001", "MATH101", "T1", 40, "Math"⟩, ⟨"S002", "MATH101", "T2", 30, "Math"⟩]

def c9Teachers : List TeacherRow := [⟨"T1", "Math"⟩, ⟨"T2", "Math"⟩]

/-- Witness for C9 at a concrete catalog: splitting the 40-seat section
`S001` halves it to 20 and appends `S003` with 20 seats, the same course
and department, and the other MATH101 teacher. -/
theorem c9_split_section_witness :
    splitSection c9Rows c9Teachers "S001" =
      [⟨"S001", "MATH101", "T1", 20, "Math"⟩, ⟨"S002", "MATH101", "T2", 30, "Math"⟩,
       ⟨"S003", "MATH101", "T2", 20, "Math"⟩] := by
  have h := (((c9_split_section c9Rows c9Teachers "S001").2
    ⟨"S001", "MATH101", "T1", 40, "Math"⟩ (by decide)).2 (by decide)).2.2.1
    "T2" (by decide)
  exact h.trans (by decide)
